import Mathlib

/-!
Shallow embedding of the helices repository.

The repository consists of two Blender scripts, helix_maker.py and
chang_techniques.py.  Both place rigid residue objects along helices and
assemble molecules from attachment lists; chang_techniques.py additionally
builds a reusable skeleton of empties and copies object subtrees
recursively.  Floating point arithmetic of the scripts is modelled over the
real numbers; Blender Euler rotations use the default XYZ order, so the
rotation applied to a vector is rotZ after rotY after rotX, and a parent
with Euler rotation e and location p maps a child-local point v to
p + euler e v.  Scene-graph state (objects, one collection, data blocks) is
modelled as an explicit store with an id allocator.
-/

noncomputable section

open Real

/-- Three real components, standing for Blender locations and Euler triples. -/
structure Vec3 where
  x : ℝ
  y : ℝ
  z : ℝ

instance : Add Vec3 := ⟨fun a b => ⟨a.x + b.x, a.y + b.y, a.z + b.z⟩⟩

instance : Sub Vec3 := ⟨fun a b => ⟨a.x - b.x, a.y - b.y, a.z - b.z⟩⟩

instance : Zero Vec3 := ⟨⟨0, 0, 0⟩⟩

/-- Right-handed rotation about the x axis. -/
def rotX (t : ℝ) (v : Vec3) : Vec3 :=
  ⟨v.x, cos t * v.y - sin t * v.z, sin t * v.y + cos t * v.z⟩

/-- Right-handed rotation about the y axis. -/
def rotY (t : ℝ) (v : Vec3) : Vec3 :=
  ⟨cos t * v.x + sin t * v.z, v.y, -(sin t) * v.x + cos t * v.z⟩

/-- Right-handed rotation about the z axis. -/
def rotZ (t : ℝ) (v : Vec3) : Vec3 :=
  ⟨cos t * v.x - sin t * v.y, sin t * v.x + cos t * v.y, v.z⟩

/-- Blender XYZ Euler rotation applied to a vector: z after y after x. -/
def euler (e : Vec3) (v : Vec3) : Vec3 :=
  rotZ e.z (rotY e.y (rotX e.x v))

/-- Euclidean length of a vector. -/
def norm3 (v : Vec3) : ℝ :=
  Real.sqrt (v.x ^ 2 + v.y ^ 2 + v.z ^ 2)

/-- Which helix strand a placed residue belongs to. -/
inductive Strand where
  | ref
  | comp
  deriving DecidableEq

/-- A candidate Blender object handed to the helix builders: only its name and
its Euler rotation are observable through the placement code (locations are
overwritten, and the reference-strand code keeps the x Euler of the source). -/
structure BObj where
  name : String
  rotation : Vec3

/-- A residue placed by helix_maker.makeHelix: the new object name, the name of
the source object it was copied from, and its world transform. -/
structure Placed where
  strand : Strand
  idx : ℕ
  newName : String
  srcName : String
  rotation : Vec3
  location : Vec3

namespace helix_maker

/-- Complement function for DNA (helix_maker.py lines 124-131): T and A swap,
G maps to C, and every other name falls through to G. -/
def complementDNA (name : String) : String :=
  if name = "A" then "T"
  else if name = "T" then "A"
  else if name = "G" then "C"
  else "G"

/-- Complement function for RNA (helix_maker.py lines 134-141): A maps to the
object name U_C, U maps to A_C, G maps to C, and everything else to G. -/
def complementRNA (name : String) : String :=
  if name = "A" then "U_C"
  else if name = "U" then "A_C"
  else if name = "G" then "C"
  else "G"

/-- One iteration of the first-strand loop of makeHelix (lines 48-60): the
residue named reference i is copied, its y Euler is set to -tilt, its z Euler
to angle*i - pi (x is kept from the source object), and it is moved to the
parametric helix point; curHeight has accumulated to i*height. -/
def refPlace (objects : List BObj) (angle radius tilt height : ℝ) (loc : Vec3)
    (i : ℕ) (nm : String) : Option Placed :=
  (objects.find? (fun o => o.name = nm)).map (fun ob =>
    { strand := Strand.ref
      idx := i
      newName := "Reference_" ++ toString i ++ "_" ++ nm
      srcName := nm
      rotation := ⟨ob.rotation.x, -tilt, angle * (i : ℝ) - Real.pi⟩
      location := ⟨radius * cos (angle * (i : ℝ)) + loc.x,
                   radius * sin (angle * (i : ℝ)) + loc.y,
                   (i : ℝ) * height + loc.z⟩ })

/-- One iteration of the second-strand loop of makeHelix (lines 66-79): the
complement residue gets Euler (pi, tilt, angle*i + rotate - pi) and sits at
angular offset rotate, with curHeight starting at 2*radius*sin tilt. -/
def compPlace (objects : List BObj) (angle radius tilt rotate height : ℝ) (loc : Vec3)
    (i : ℕ) (nm : String) : Option Placed :=
  (objects.find? (fun o => o.name = nm)).map (fun _ =>
    { strand := Strand.comp
      idx := i
      newName := "Complement_" ++ toString i ++ "_" ++ nm
      srcName := nm
      rotation := ⟨Real.pi, tilt, angle * (i : ℝ) + rotate - Real.pi⟩
      location := ⟨radius * cos (angle * (i : ℝ) + rotate) + loc.x,
                   radius * sin (angle * (i : ℝ) + rotate) + loc.y,
                   2 * radius * sin tilt + (i : ℝ) * height + loc.z⟩ })

/-- The per-strand loop of makeHelix, indexed from i; a failing name lookup
(python list.index raising ValueError) aborts the run. -/
def placeLoop (f : ℕ → String → Option Placed) : ℕ → List String → Option (List Placed)
  | _, [] => some []
  | i, nm :: rest =>
    match f i nm with
    | none => none
    | some p =>
      match placeLoop f (i + 1) rest with
      | none => none
      | some ps => some (p :: ps)

/-- makeHelix of helix_maker.py (lines 18-79).  collections holds the names of
the collections already in the scene (the duplicate check of lines 21-24);
reference is complemented elementwise by comp_fun, the two sequences swap when
comp is set, the first strand is always placed, and the second strand only when
strand is at least 2.  The result lists the placed residues, first strand
before second strand, and is none when the run errors out. -/
def makeHelix (collections : List String) (collect_name : String) (objects : List BObj)
    (reference : List String) (comp_fun : String → String) (comp : Bool) (strand : ℤ)
    (angle radius tilt rotate height : ℝ) (location : Vec3) : Option (List Placed) :=
  if collect_name ∈ collections then none
  else
    let complement := reference.map comp_fun
    let refSeq := if comp then complement else reference
    let comSeq := if comp then reference else complement
    match placeLoop (refPlace objects angle radius tilt height location) 0 refSeq with
    | none => none
    | some first =>
      if strand < 2 then some first
      else
        match placeLoop (compPlace objects angle radius tilt rotate height location) 0 comSeq with
        | none => none
        | some second => some (first ++ second)

end helix_maker

namespace chang_techniques

/-- Complement function for DNA (chang_techniques.py lines 530-554); python
falls through to an implicit None outside the listed names. -/
def complementDNA (name : String) : Option String :=
  if name = "A1" then some "T1"
  else if name = "T1" then some "A1"
  else if name = "G1" then some "C1"
  else if name = "C1" then some "G1"
  else if name = "A2" then some "T2"
  else if name = "T2" then some "A2"
  else if name = "G2" then some "C2"
  else if name = "C2" then some "G2"
  else if name = "A3" then some "T3"
  else if name = "T3" then some "A3"
  else if name = "G3" then some "C3"
  else if name = "C3" then some "G3"
  else none

/-- Complement function for RNA (chang_techniques.py lines 557-581). -/
def complementRNA (name : String) : Option String :=
  if name = "a1" then some "U1"
  else if name = "U1" then some "a1"
  else if name = "g1" then some "c1"
  else if name = "c1" then some "g1"
  else if name = "a2" then some "U2"
  else if name = "U2" then some "a2"
  else if name = "g2" then some "c2"
  else if name = "c2" then some "g2"
  else if name = "a3" then some "U3"
  else if name = "U3" then some "a3"
  else if name = "g3" then some "c3"
  else if name = "c3" then some "g3"
  else none

/-- The domain of complementDNA of chang_techniques.py with the partner of
each entry, transcribed branch by branch from lines 530-554. -/
def dnaPairs : List (String × String) :=
  [("A1", "T1"), ("T1", "A1"), ("G1", "C1"), ("C1", "G1"),
   ("A2", "T2"), ("T2", "A2"), ("G2", "C2"), ("C2", "G2"),
   ("A3", "T3"), ("T3", "A3"), ("G3", "C3"), ("C3", "G3")]

/-- The domain of complementRNA of chang_techniques.py with the partner of
each entry, transcribed branch by branch from lines 557-581. -/
def rnaPairs : List (String × String) :=
  [("a1", "U1"), ("U1", "a1"), ("g1", "c1"), ("c1", "g1"),
   ("a2", "U2"), ("U2", "a2"), ("g2", "c2"), ("c2", "g2"),
   ("a3", "U3"), ("U3", "a3"), ("g3", "c3"), ("c3", "g3")]

/-- One rung of a skeleton made by makeSkeleton: the reference empty named
collect_name_i at world location loc with zero rotation, and its child rotator
empty at local origin with z Euler rotZAngle = base * i. -/
structure Rung where
  idx : ℕ
  loc : Vec3
  rotZAngle : ℝ

/-- The loop of makeSkeleton (lines 650-669): rung i copies the current value
of the mutable location list into the reference empty, then the list entry
location[2] is incremented by height.  Returns the rungs and the final value of
the location list. -/
def skelLoop (height base : ℝ) : ℕ → ℕ → Vec3 → List Rung × Vec3
  | _, 0, loc => ([], loc)
  | i, n + 1, loc =>
    let r : Rung := ⟨i, loc, base * (i : ℝ)⟩
    let rest := skelLoop height base (i + 1) n ⟨loc.x, loc.y, loc.z + height⟩
    (r :: rest.1, rest.2)

/-- makeSkeleton of chang_techniques.py (lines 638-669), for the case where a
location list is passed explicitly.  The duplicate-collection check of lines
643-646 aborts the call; otherwise num_objects rungs are made and the location
list ends up raised by num_objects * height. -/
def makeSkeleton (collections : List String) (collect_name : String) (num_objects : ℕ)
    (height base : ℝ) (location : Vec3) : Option (List Rung × Vec3) :=
  if collect_name ∈ collections then none
  else some (skelLoop height base 0 num_objects location)

/-- getComp of chang_techniques.py (lines 617-630) as called with a list of
valid object names: each reference entry is complemented, and the run fails
when a reference entry, or its complement (python None included), is not a
known object name. -/
def getComp : List String → (String → Option String) → List String → Option (List String)
  | [], _, _ => some []
  | nm :: rest, comp_fun, object_names =>
    match comp_fun nm with
    | none => if nm ∈ object_names then none else none
    | some cn =>
      if nm ∈ object_names then
        if cn ∈ object_names then
          match getComp rest comp_fun object_names with
          | none => none
          | some cs => some (cn :: cs)
        else none
      else none

/-- A residue hung on a skeleton rung by makeHelix of chang_techniques.py: its
source object name and its transform local to the rotator empty of the rung. -/
structure Decor where
  strand : Strand
  rungIdx : ℕ
  srcName : String
  rotation : Vec3
  location : Vec3

/-- The decoration loop of makeHelix (lines 716-736): per rung the reference
residue is copied to local offset (radius, 0, 0) with Euler
(source x, -tilt, -pi), and when strand equals 2 the complement residue gets
Euler (pi, tilt, disp - pi) at offset disp around the rung axis, raised by
2 * radius * sin tilt.  Output order follows creation order. -/
def decorLoop (objects : List BObj) (strand : ℤ) (radius tilt disp : ℝ) :
    ℕ → List String → List String → Option (List Decor)
  | _, [], _ => some []
  | _, _ :: _, [] => none
  | i, nm :: refRest, cn :: compRest =>
    match objects.find? (fun o => o.name = nm) with
    | none => none
    | some ob =>
      let dref : Decor :=
        ⟨Strand.ref, i, nm, ⟨ob.rotation.x, -tilt, -Real.pi⟩, ⟨radius, 0, 0⟩⟩
      if strand = 2 then
        match objects.find? (fun o => o.name = cn) with
        | none => none
        | some _ =>
          let dcom : Decor :=
            ⟨Strand.comp, i, cn, ⟨Real.pi, tilt, disp - Real.pi⟩,
             ⟨radius * cos disp, radius * sin disp, 2 * radius * sin tilt⟩⟩
          match decorLoop objects strand radius tilt disp (i + 1) refRest compRest with
          | none => none
          | some ds => some (dref :: dcom :: ds)
      else
        match decorLoop objects strand radius tilt disp (i + 1) refRest compRest with
        | none => none
        | some ds => some (dref :: ds)

/-- makeHelix of chang_techniques.py (lines 697-736), applied to a fresh
skeleton (so the per-rung adornment check of lines 718-720 passes).  The rung
existence check of lines 708-712 requires a rung for every sequence position;
getComp validates both sequences against the object names. -/
def makeHelix (skeleton : List Rung) (objects : List BObj) (reference : List String)
    (comp_fun : String → Option String) (strand : ℤ) (radius tilt disp : ℝ) :
    Option (List Decor) :=
  if reference.length ≤ skeleton.length then
    match getComp reference comp_fun (objects.map (fun o => o.name)) with
    | none => none
    | some complement => decorLoop objects strand radius tilt disp 0 reference complement
  else none

/-- World position of a point local to the rotator empty of a rung: the
reference empty sits at rung.loc with zero rotation and the rotator at its
origin rotated by rotZAngle about z. -/
def rungWorldPos (r : Rung) (localLoc : Vec3) : Vec3 :=
  r.loc + rotZ r.rotZAngle localLoc

/-- World rotation of a residue local to the rotator empty of a rung, as the
function it applies to vectors. -/
def rungWorldRot (r : Rung) (localRot : Vec3) (v : Vec3) : Vec3 :=
  rotZ r.rotZAngle (euler localRot v)

end chang_techniques

/-- A scene object record: identity, name, optional data block reference,
parent link, and local transform. -/
structure SObj where
  id : ℕ
  name : String
  dataId : Option ℕ
  parent : Option ℕ
  loc : Vec3
  rot : Vec3

/-- The Blender state the scripts touch: the object store, the ids linked into
the Molecules collection in link order, the data blocks as id-content pairs,
and fresh-id allocators for objects and data blocks. -/
structure Scene where
  objs : List SObj
  links : List ℕ
  datas : List (ℕ × ℕ)
  nextObj : ℕ
  nextData : ℕ

mutual

/-- Snapshot of an object and its descendants: name, data block content when
the object has data, local transform, and child subtrees in order. -/
inductive OTree where
  | node (name : String) (data : Option ℕ) (loc rot : Vec3) (children : OForest)

/-- Snapshot of an ordered list of sibling subtrees. -/
inductive OForest where
  | nil
  | cons (t : OTree) (ts : OForest)

end

mutual

/-- Number of objects in a subtree snapshot. -/
def OTree.size : OTree → ℕ
  | .node _ _ _ _ cs => 1 + OForest.size cs

/-- Number of objects in a forest snapshot. -/
def OForest.size : OForest → ℕ
  | .nil => 0
  | .cons t ts => OTree.size t + OForest.size ts

end

mutual

/-- Number of objects with a data block in a subtree snapshot. -/
def OTree.dsize : OTree → ℕ
  | .node _ dat _ _ cs => (match dat with | none => 0 | some _ => 1) + OForest.dsize cs

/-- Number of objects with a data block in a forest snapshot. -/
def OForest.dsize : OForest → ℕ
  | .nil => 0
  | .cons t ts => OTree.dsize t + OForest.dsize ts

end

mutual

/-- copyRec of chang_techniques.py (lines 53-64) on the scene store: the root
of the snapshot is copied with a fresh id, gets a fresh data block copy when it
has data, is reparented to the given parent and linked into the collection,
and the children are then copied recursively under the new copy.  Returns the
new scene and the id of the root copy. -/
def copyRec (t : OTree) (parent : Option ℕ) (s : Scene) : Scene × ℕ :=
  match t with
  | .node nm dat lc rt cs =>
    let cid := s.nextObj
    let dId : Option ℕ := dat.map (fun _ => s.nextData)
    let nd : ℕ := match dat with | none => s.nextData | some _ => s.nextData + 1
    let newDatas : List (ℕ × ℕ) := match dat with | none => [] | some v => [(s.nextData, v)]
    let copy : SObj := ⟨cid, nm, dId, parent, lc, rt⟩
    let s1 : Scene := ⟨s.objs ++ [copy], s.links ++ [cid], s.datas ++ newDatas, s.nextObj + 1, nd⟩
    (copyForest cs (some cid) s1, cid)

/-- The recursive child loop of copyRec. -/
def copyForest : OForest → Option ℕ → Scene → Scene
  | .nil, _, s => s
  | .cons t ts, p, s => copyForest ts p (copyRec t p s).1

end

mutual

/-- The object records that copyRec creates, in creation order, when started
with allocator values oid and did: the root copy first, then the copies of the
child subtrees. -/
def copies (t : OTree) (parent : Option ℕ) (oid did : ℕ) : List SObj :=
  match t with
  | .node nm dat lc rt cs =>
    ⟨oid, nm, dat.map (fun _ => did), parent, lc, rt⟩ ::
      copiesF cs (some oid) (oid + 1) (did + (match dat with | none => 0 | some _ => 1))

/-- The object records a forest copy creates, in creation order. -/
def copiesF : OForest → Option ℕ → ℕ → ℕ → List SObj
  | .nil, _, _, _ => []
  | .cons t ts, p, oid, did =>
    copies t p oid did ++ copiesF ts p (oid + OTree.size t) (did + OTree.dsize t)

end

mutual

/-- The data blocks that copyRec creates, in creation order. -/
def treeDatas (t : OTree) (did : ℕ) : List (ℕ × ℕ) :=
  match t with
  | .node _ dat _ _ cs =>
    (match dat with | none => [] | some v => [(did, v)]) ++
      forestDatas cs (did + (match dat with | none => 0 | some _ => 1))

/-- The data blocks a forest copy creates, in creation order. -/
def forestDatas : OForest → ℕ → List (ℕ × ℕ)
  | .nil, _ => []
  | .cons t ts, did => treeDatas t did ++ forestDatas ts (did + OTree.dsize t)

end

/-- The children of object i, read off the scene as Blender derives them from
parent links, in store order. -/
def childrenOf (s : Scene) (i : ℕ) : List SObj :=
  s.objs.filter (fun o => o.parent = some i)

/-- First object record with the given id. -/
def findObj (s : Scene) (i : ℕ) : Option SObj :=
  s.objs.find? (fun o => o.id = i)

/-- Content of the data block with the given id. -/
def dataLookup (s : Scene) (d : ℕ) : Option ℕ :=
  (s.datas.find? (fun p => p.1 = d)).map (fun p => p.2)

/-- Overwrites the content of the data block with the given id, modelling a
later mutation of that data block. -/
def setData (s : Scene) (d v : ℕ) : Scene :=
  ⟨s.objs, s.links, s.datas.map (fun p => if p.1 = d then (p.1, v) else p), s.nextObj, s.nextData⟩

/-- Collects a list of optional subtrees into an optional forest. -/
def allSomeForest : List (Option OTree) → Option OForest
  | [] => some OForest.nil
  | none :: _ => none
  | some t :: rest => (allSomeForest rest).map (OForest.cons t)

/-- Extracts the snapshot of the subtree rooted at object i, spending one unit
of fuel per level; fails on missing objects, missing data blocks, or when the
fuel runs out. -/
def subtreeF (s : Scene) : ℕ → ℕ → Option OTree
  | 0, _ => none
  | fuel + 1, i =>
    match findObj s i with
    | none => none
    | some o =>
      match allSomeForest ((childrenOf s i).map (fun c => subtreeF s fuel c.id)) with
      | none => none
      | some f =>
        match o.dataId with
        | none => some (OTree.node o.name none o.loc o.rot f)
        | some d =>
          match dataLookup s d with
          | none => none
          | some v => some (OTree.node o.name (some v) o.loc o.rot f)

/-- Replaces the record of object i by f applied to it, leaving every other
record alone. -/
def updateObj (s : Scene) (i : ℕ) (f : SObj → SObj) : Scene :=
  ⟨s.objs.map (fun o => if o.id = i then f o else o), s.links, s.datas, s.nextObj, s.nextData⟩

/-- An attachment entry as passed to either makeMolecule: group name, distance
between centers, down Euler, z Euler, and bond rotation angle. -/
structure MAtt where
  srcName : String
  d : ℝ
  down : ℝ
  zEuler : ℝ
  bond : ℝ

/-- The objects of the Molecules collection in collection order, resolving
each linked id to its first record. -/
def linkedObjs (s : Scene) : List SObj :=
  s.links.filterMap (fun i => findObj s i)

/-- The names of the objects of the Molecules collection, in order, as the
name-check loop of makeMolecule reads them. -/
def objNames (s : Scene) : List String :=
  (linkedObjs s).map (fun o => o.name)

/-- Resolves a name to the id of the first collection object carrying it, as
the name subscript on a Blender collection does. -/
def linkedIdOf (s : Scene) (nm : String) : Option ℕ :=
  ((linkedObjs s).find? (fun o => o.name = nm)).map (fun o => o.id)

namespace chang_techniques

/-- The attachment loop of makeMolecule (chang_techniques.py lines 144-162):
per entry an empty named EMPTY_name_i is created with Euler
(0, down, zEuler) and linked, the source group is copied recursively, the copy
is moved to local position (0, 0, d) with Euler (pi, 0, bond), renamed to
name_i and parented to the empty, and the empty is parented to the parent
copy.  A failing group lookup raises in python and aborts the loop here. -/
def attachLoop (rootId : ℕ) (name : String) : List MAtt → ℕ → Scene → Scene × Option ℕ
  | [], _, s => (s, some rootId)
  | a :: rest, i, s =>
    let fname := name ++ "_" ++ toString i
    let emptyObj : SObj :=
      ⟨s.nextObj, "EMPTY_" ++ fname, none, none, ⟨0, 0, 0⟩, ⟨0, a.down, a.zEuler⟩⟩
    let eid := s.nextObj
    let s1 : Scene := ⟨s.objs ++ [emptyObj], s.links ++ [eid], s.datas, s.nextObj + 1, s.nextData⟩
    match linkedIdOf s1 a.srcName with
    | none => (s1, none)
    | some sid =>
      match subtreeF s1 s1.objs.length sid with
      | none => (s1, none)
      | some t =>
        let res := copyRec t none s1
        let s3 := updateObj res.1 res.2
          (fun o => ⟨o.id, fname, o.dataId, some eid, ⟨0, 0, a.d⟩, ⟨Real.pi, 0, a.bond⟩⟩)
        let s4 := updateObj s3 eid
          (fun o => ⟨o.id, o.name, o.dataId, some rootId, o.loc, o.rot⟩)
        attachLoop rootId name rest (i + 1) s4

/-- makeMolecule of chang_techniques.py (lines 122-163): the duplicate-name
check and the parent-name check run over the collection before anything is
created, then the parent group is copied recursively, moved to the call
location and renamed, and the attachment loop runs.  Returns the scene and the
id of the new parent copy, or none on error. -/
def makeMolecule (s : Scene) (name parent_name : String) (attachments : List MAtt)
    (location : Vec3) : Scene × Option ℕ :=
  if name ∈ objNames s then (s, none)
  else if parent_name ∈ objNames s then
    match linkedIdOf s parent_name with
    | none => (s, none)
    | some pid =>
      match subtreeF s s.objs.length pid with
      | none => (s, none)
      | some t =>
        let res := copyRec t none s
        let s2 := updateObj res.1 res.2
          (fun o => ⟨o.id, name, o.dataId, o.parent, location, o.rot⟩)
        attachLoop res.2 name attachments 0 s2
  else (s, none)

end chang_techniques

namespace helix_maker

/-- What one iteration of the attachment loop of makeMolecule
(helix_maker.py lines 101-120) produces: the intermediate empty with Euler
(0, down, zEuler) at the parent origin, and the copied group at local position
(0, 0, d); the copy's Euler is reset to (0, 0, 0) and only its z component is
then set to the bond angle. -/
structure MolAttach where
  srcName : String
  newName : String
  emptyRot : Vec3
  emptyLoc : Vec3
  objLoc : Vec3
  objRot : Vec3

/-- One iteration of the attachment loop of makeMolecule of helix_maker.py:
the first attachment keeps the molecule name, later ones are Attachment_i. -/
def attachOne (moleculeName : String) (i : ℕ) (a : MAtt) : MolAttach :=
  { srcName := a.srcName
    newName := if i = 0 then moleculeName else "Attachment_" ++ toString i
    emptyRot := ⟨0, a.down, a.zEuler⟩
    emptyLoc := ⟨0, 0, 0⟩
    objLoc := ⟨0, 0, a.d⟩
    objRot := ⟨0, 0, a.bond⟩ }

/-- The attachment loop of makeMolecule of helix_maker.py; a failing name
lookup raises in python and aborts the run here. -/
def attachAll (object_names : List String) (moleculeName : String) :
    List MAtt → ℕ → Option (List MolAttach)
  | [], _ => some []
  | a :: rest, i =>
    if a.srcName ∈ object_names then
      match attachAll object_names moleculeName rest (i + 1) with
      | none => none
      | some ms => some (attachOne moleculeName i a :: ms)
    else none

/-- makeMolecule of helix_maker.py (lines 87-121): the duplicate-name check
runs over the collection names, then every attachment is placed under the
central empty; the final join is not modelled. -/
def makeMolecule (object_names : List String) (name : String) (attachments : List MAtt)
    (location : Vec3) : Option (List MolAttach) :=
  if name ∈ object_names then none
  else attachAll object_names name attachments 0

end helix_maker

/-- The record that the root copy of a subtree snapshot receives. -/
def rootRec : OTree → Option ℕ → ℕ → ℕ → SObj
  | OTree.node nm dat lc rt _, p, oid, did => ⟨oid, nm, dat.map (fun _ => did), p, lc, rt⟩

/-- The root records of the copies of the subtrees of a forest, in order. -/
def rootsF : OForest → Option ℕ → ℕ → ℕ → List SObj
  | OForest.nil, _, _, _ => []
  | OForest.cons t ts, p, oid, did =>
    rootRec t p oid did :: rootsF ts p (oid + OTree.size t) (did + OTree.dsize t)

/-- Well-formedness of the scene store: every object id, parent reference and
data reference is below the corresponding allocator, as is every data block
key and every collection link. -/
def SceneWF (s : Scene) : Prop :=
  (∀ o ∈ s.objs, o.id < s.nextObj ∧
    o.parent.all (fun q => decide (q < s.nextObj)) = true ∧
    o.dataId.all (fun d => decide (d < s.nextData)) = true) ∧
  (∀ e ∈ s.datas, e.1 < s.nextData) ∧
  (∀ i ∈ s.links, i < s.nextObj)

/-! Helper lemmas about the geometry primitives. -/

theorem rotZ_rotZ (a b : ℝ) (v : Vec3) : rotZ a (rotZ b v) = rotZ (a + b) v := by
  simp only [rotZ, cos_add, sin_add, Vec3.mk.injEq]
  exact ⟨by ring, by ring, trivial⟩

theorem rotZ_congr (a b : ℝ) (v : Vec3) (h : a = b) : rotZ a v = rotZ b v := by
  rw [h]

theorem euler_z_shift (a : ℝ) (e : Vec3) (v : Vec3) :
    rotZ a (euler e v) = euler ⟨e.x, e.y, a + e.z⟩ v := by
  simp only [euler, rotZ_rotZ]

/-! Claim C3.  The four complement functions and involutivity. -/

/-- Counterexample to claim C3: helix_maker.complementRNA is not an involution
on its own base codes, since it sends A to the object name U_C, which the
catch-all branch then sends to G rather than back to A. -/
theorem claim_C3_counterexample :
    ¬ (helix_maker.complementRNA (helix_maker.complementRNA "A") = "A") := by
  decide

/-- Claim C3 as amended: helix_maker.complementDNA is an involution on the DNA
base codes, both complement functions of chang_techniques.py are involutions on
their whole domains, but helix_maker.complementRNA pairs A with the complement
object name U_C and U with A_C and is an involution only on G and C. -/
theorem claim_C3_amended :
    (∀ x ∈ (["A", "T", "G", "C"] : List String),
        helix_maker.complementDNA (helix_maker.complementDNA x) = x) ∧
    (∀ x ∈ (["G", "C"] : List String),
        helix_maker.complementRNA (helix_maker.complementRNA x) = x) ∧
    (helix_maker.complementRNA "A" = "U_C" ∧ helix_maker.complementRNA "U" = "A_C") ∧
    (∀ p ∈ chang_techniques.dnaPairs,
        chang_techniques.complementDNA p.1 = some p.2 ∧
        chang_techniques.complementDNA p.2 = some p.1) ∧
    (∀ p ∈ chang_techniques.rnaPairs,
        chang_techniques.complementRNA p.1 = some p.2 ∧
        chang_techniques.complementRNA p.2 = some p.1) := by
  decide

/-- Witness for the amended claim C3 at concrete base codes. -/
theorem claim_C3_amended_witness :
    helix_maker.complementDNA (helix_maker.complementDNA "A") = "A" ∧
    (chang_techniques.complementDNA "A1" = some "T1" ∧
     chang_techniques.complementDNA "T1" = some "A1") :=
  ⟨claim_C3_amended.1 "A" (by decide),
   claim_C3_amended.2.2.2.1 ("A1", "T1") (by decide)⟩

/-! Helper lemmas about name lookup and the helix placement loops. -/

theorem Vec3.ext3 {a b : Vec3} (hx : a.x = b.x) (hy : a.y = b.y) (hz : a.z = b.z) :
    a = b := by
  cases a
  cases b
  simp_all

theorem chang_techniques.Rung.extRung {a b : chang_techniques.Rung} (h1 : a.idx = b.idx)
    (h2 : a.loc = b.loc) (h3 : a.rotZAngle = b.rotZAngle) : a = b := by
  cases a
  cases b
  simp_all

theorem find_name_of_mem (objects : List BObj) (nm : String)
    (h : nm ∈ objects.map BObj.name) :
    ∃ ob, objects.find? (fun o => o.name = nm) = some ob ∧ ob.name = nm := by
  have hex : ∃ o ∈ objects, o.name = nm := by simpa using h
  rcases hex with ⟨o, ho, hname⟩
  have hs : (objects.find? (fun o => o.name = nm)).isSome := by
    rw [List.find?_isSome]
    exact ⟨o, ho, by simp [hname]⟩
  rcases Option.isSome_iff_exists.mp hs with ⟨ob, hob⟩
  refine ⟨ob, hob, ?_⟩
  have := List.find?_some hob
  simpa using this

namespace helix_maker

theorem placeLoop_length (f : ℕ → String → Option Placed) :
    ∀ (l : List String) (i : ℕ) (out : List Placed),
      placeLoop f i l = some out → out.length = l.length := by
  intro l
  induction l with
  | nil =>
    intro i out h
    simp only [placeLoop, Option.some.injEq] at h
    subst h
    rfl
  | cons nm rest ih =>
    intro i out h
    simp only [placeLoop] at h
    cases hf : f i nm with
    | none => rw [hf] at h; exact absurd h (by simp)
    | some p =>
      rw [hf] at h
      cases hr : placeLoop f (i + 1) rest with
      | none => rw [hr] at h; exact absurd h (by simp)
      | some ps =>
        rw [hr] at h
        simp only [Option.some.injEq] at h
        subst h
        simp [ih (i + 1) ps hr]

theorem placeLoop_get (f : ℕ → String → Option Placed) :
    ∀ (l : List String) (i : ℕ) (out : List Placed),
      placeLoop f i l = some out →
      ∀ (j : ℕ) (nm : String), l.get? j = some nm → out.get? j = f (i + j) nm := by
  intro l
  induction l with
  | nil =>
    intro i out _ j nm hj
    simp at hj
  | cons hd rest ih =>
    intro i out h j nm hj
    simp only [placeLoop] at h
    cases hf : f i hd with
    | none => rw [hf] at h; exact absurd h (by simp)
    | some p =>
      rw [hf] at h
      cases hr : placeLoop f (i + 1) rest with
      | none => rw [hr] at h; exact absurd h (by simp)
      | some ps =>
        rw [hr] at h
        simp only [Option.some.injEq] at h
        subst h
        cases j with
        | zero =>
          simp only [List.get?, Option.some.injEq] at hj
          subst hj
          simpa using hf.symm
        | succ j =>
          simp only [List.get?] at hj ⊢
          have hstep : i + (j + 1) = (i + 1) + j := by omega
          rw [hstep]
          exact ih (i + 1) ps hr j nm hj

theorem placeLoop_isSome (f : ℕ → String → Option Placed) :
    ∀ (l : List String) (i : ℕ),
      (∀ j nm, nm ∈ l → (f j nm).isSome) → (placeLoop f i l).isSome := by
  intro l
  induction l with
  | nil => intro i _; simp [placeLoop]
  | cons hd rest ih =>
    intro i h
    have hhd : (f i hd).isSome := h i hd (by simp)
    rcases Option.isSome_iff_exists.mp hhd with ⟨p, hp⟩
    have hrest : (placeLoop f (i + 1) rest).isSome :=
      ih (i + 1) (fun j nm hmem => h j nm (by simp [hmem]))
    rcases Option.isSome_iff_exists.mp hrest with ⟨ps, hps⟩
    simp [placeLoop, hp, hps]

theorem placeLoop_countP_one (f : ℕ → String → Option Placed) (pr : Placed → Bool) (k : ℕ)
    (hf : ∀ j nm p, f j nm = some p → (pr p = true ↔ j = k)) :
    ∀ (l : List String) (i : ℕ) (out : List Placed),
      placeLoop f i l = some out →
      out.countP pr = if i ≤ k ∧ k < i + l.length then 1 else 0 := by
  intro l
  induction l with
  | nil =>
    intro i out h
    simp only [placeLoop, Option.some.injEq] at h
    subst h
    simp only [List.countP_nil, List.length_nil]
    split_ifs with hc
    · omega
    · rfl
  | cons hd rest ih =>
    intro i out h
    simp only [placeLoop] at h
    cases hf0 : f i hd with
    | none => rw [hf0] at h; exact absurd h (by simp)
    | some p =>
      rw [hf0] at h
      cases hr : placeLoop f (i + 1) rest with
      | none => rw [hr] at h; exact absurd h (by simp)
      | some ps =>
        rw [hr] at h
        simp only [Option.some.injEq] at h
        subst h
        have hps := ih (i + 1) ps hr
        have hpv := hf i hd p hf0
        rw [List.countP_cons, hps]
        simp only [List.length_cons]
        by_cases hik : i = k
        · have hpt : pr p = true := hpv.mpr hik
          rw [hpt]
          subst hik
          rw [if_neg (by omega : ¬(i + 1 ≤ i ∧ i < i + 1 + rest.length))]
          rw [if_pos (by omega : i ≤ i ∧ i < i + (rest.length + 1))]
          simp
        · have hpt : pr p = false := by
            cases hb : pr p
            · rfl
            · exact absurd (hpv.mp hb) hik
          rw [hpt]
          have hiff : (i + 1 ≤ k ∧ k < i + 1 + rest.length) ↔
              (i ≤ k ∧ k < i + (rest.length + 1)) := by omega
          simp only [Bool.false_eq_true, if_false, add_zero]
          rw [if_congr hiff rfl rfl]

theorem placeLoop_countP_zero (f : ℕ → String → Option Placed) (pr : Placed → Bool)
    (hf : ∀ j nm p, f j nm = some p → pr p = false) :
    ∀ (l : List String) (i : ℕ) (out : List Placed),
      placeLoop f i l = some out → out.countP pr = 0 := by
  intro l
  induction l with
  | nil =>
    intro i out h
    simp only [placeLoop, Option.some.injEq] at h
    subst h
    rfl
  | cons hd rest ih =>
    intro i out h
    simp only [placeLoop] at h
    cases hf0 : f i hd with
    | none => rw [hf0] at h; exact absurd h (by simp)
    | some p =>
      rw [hf0] at h
      cases hr : placeLoop f (i + 1) rest with
      | none => rw [hr] at h; exact absurd h (by simp)
      | some ps =>
        rw [hr] at h
        simp only [Option.some.injEq] at h
        subst h
        rw [List.countP_cons, ih (i + 1) ps hr, hf i hd p hf0]
        simp

end helix_maker

namespace chang_techniques

theorem skelLoop_spec (height base : ℝ) :
    ∀ (n i : ℕ) (loc : Vec3),
      (skelLoop height base i n loc).2 = ⟨loc.x, loc.y, loc.z + (n : ℝ) * height⟩ ∧
      (skelLoop height base i n loc).1.length = n ∧
      ∀ j, j < n → (skelLoop height base i n loc).1.get? j =
        some ⟨i + j, ⟨loc.x, loc.y, loc.z + (j : ℝ) * height⟩,
              base * ((i : ℝ) + (j : ℝ))⟩ := by
  intro n
  induction n with
  | zero =>
    intro i loc
    refine ⟨?_, rfl, fun j hj => absurd hj (by omega)⟩
    apply Vec3.ext3
    · rfl
    · rfl
    · show loc.z = loc.z + ((0 : ℕ) : ℝ) * height
      push_cast
      ring
  | succ n ih =>
    intro i loc
    have ihs := ih (i + 1) ⟨loc.x, loc.y, loc.z + height⟩
    have hunf : skelLoop height base i (n + 1) loc =
        (⟨i, loc, base * (i : ℝ)⟩ ::
           (skelLoop height base (i + 1) n ⟨loc.x, loc.y, loc.z + height⟩).1,
         (skelLoop height base (i + 1) n ⟨loc.x, loc.y, loc.z + height⟩).2) := rfl
    rw [hunf]
    refine ⟨?_, ?_, ?_⟩
    · rw [ihs.1]
      apply Vec3.ext3
      · rfl
      · rfl
      · show loc.z + height + (n : ℝ) * height = loc.z + ((n + 1 : ℕ) : ℝ) * height
        push_cast
        ring
    · show (skelLoop height base (i + 1) n ⟨loc.x, loc.y, loc.z + height⟩).1.length + 1 = n + 1
      rw [ihs.2.1]
    · intro j hj
      cases j with
      | zero =>
        show some (⟨i, loc, base * (i : ℝ)⟩ : Rung) = _
        apply congrArg some
        apply Rung.extRung
        · show i = i + 0
          omega
        · apply Vec3.ext3
          · rfl
          · rfl
          · show loc.z = loc.z + ((0 : ℕ) : ℝ) * height
            push_cast
            ring
        · show base * (i : ℝ) = base * ((i : ℝ) + ((0 : ℕ) : ℝ))
          push_cast
          ring
      | succ j =>
        show (skelLoop height base (i + 1) n ⟨loc.x, loc.y, loc.z + height⟩).1.get? j = _
        rw [ihs.2.2 j (by omega)]
        apply congrArg some
        apply Rung.extRung
        · show (i + 1) + j = i + (j + 1)
          omega
        · apply Vec3.ext3
          · rfl
          · rfl
          · show loc.z + height + (j : ℝ) * height = loc.z + ((j + 1 : ℕ) : ℝ) * height
            push_cast
            ring
        · show base * (((i + 1 : ℕ) : ℝ) + (j : ℝ)) = base * ((i : ℝ) + ((j + 1 : ℕ) : ℝ))
          push_cast
          ring

theorem getComp_spec (comp_fun : String → Option String) (object_names : List String) :
    ∀ (reference : List String) (out : List String),
      getComp reference comp_fun object_names = some out →
      out.length = reference.length ∧
      ∀ j nm, reference.get? j = some nm →
        nm ∈ object_names ∧ ∃ cn, comp_fun nm = some cn ∧ cn ∈ object_names ∧
          out.get? j = some cn := by
  intro reference
  induction reference with
  | nil =>
    intro out h
    simp only [getComp, Option.some.injEq] at h
    subst h
    exact ⟨rfl, fun j nm hj => absurd hj (by simp)⟩
  | cons hd rest ih =>
    intro out h
    simp only [getComp] at h
    cases hc : comp_fun hd with
    | none => simp [hc] at h
    | some cn =>
      simp only [hc] at h
      by_cases hmem : hd ∈ object_names
      · rw [if_pos hmem] at h
        by_cases hcm : cn ∈ object_names
        · rw [if_pos hcm] at h
          cases hr : getComp rest comp_fun object_names with
          | none => rw [hr] at h; exact absurd h (by simp)
          | some cs =>
            rw [hr] at h
            simp only [Option.some.injEq] at h
            subst h
            rcases ih cs hr with ⟨hlen, hget⟩
            refine ⟨by simp [hlen], ?_⟩
            intro j nm hj
            cases j with
            | zero =>
              simp only [List.get?, Option.some.injEq] at hj
              subst hj
              exact ⟨hmem, cn, hc, hcm, rfl⟩
            | succ j =>
              simp only [List.get?] at hj ⊢
              exact hget j nm hj
        · rw [if_neg hcm] at h; exact absurd h (by simp)
      · rw [if_neg hmem] at h; exact absurd h (by simp)

theorem getComp_isSome (comp_fun : String → Option String) (object_names : List String) :
    ∀ (reference : List String),
      (∀ nm ∈ reference, nm ∈ object_names ∧
        ∃ cn, comp_fun nm = some cn ∧ cn ∈ object_names) →
      (getComp reference comp_fun object_names).isSome := by
  intro reference
  induction reference with
  | nil => intro _; simp [getComp]
  | cons hd rest ih =>
    intro h
    rcases h hd (by simp) with ⟨hmem, cn, hc, hcm⟩
    have hrest := ih (fun nm hnm => h nm (by simp [hnm]))
    rcases Option.isSome_iff_exists.mp hrest with ⟨cs, hcs⟩
    simp [getComp, hc, hmem, hcm, hcs]

end chang_techniques

namespace chang_techniques

theorem decorLoop_two (objects : List BObj) (strand : ℤ) (radius tilt disp : ℝ)
    (hs : strand = 2) :
    ∀ (refs : List String) (comps : List String) (i : ℕ) (out : List Decor),
      decorLoop objects strand radius tilt disp i refs comps = some out →
      out.length = 2 * refs.length ∧
      ∀ j nm cn, refs.get? j = some nm → comps.get? j = some cn →
        ∃ ob, objects.find? (fun o => o.name = nm) = some ob ∧
          out.get? (2 * j) = some ⟨Strand.ref, i + j, nm,
            ⟨ob.rotation.x, -tilt, -Real.pi⟩, ⟨radius, 0, 0⟩⟩ ∧
          out.get? (2 * j + 1) = some ⟨Strand.comp, i + j, cn,
            ⟨Real.pi, tilt, disp - Real.pi⟩,
            ⟨radius * cos disp, radius * sin disp, 2 * radius * sin tilt⟩⟩ := by
  intro refs
  induction refs with
  | nil =>
    intro comps i out h
    simp only [decorLoop, Option.some.injEq] at h
    subst h
    exact ⟨rfl, fun j nm cn hj _ => absurd hj (by simp)⟩
  | cons hd rest ih =>
    intro comps i out h
    cases comps with
    | nil => simp [decorLoop] at h
    | cons chd crest =>
      simp only [decorLoop] at h
      cases hf : objects.find? (fun o => o.name = hd) with
      | none => simp [hf] at h
      | some ob =>
        simp only [hf] at h
        rw [if_pos hs] at h
        cases hcf : objects.find? (fun o => o.name = chd) with
        | none => simp [hcf] at h
        | some cob =>
          simp only [hcf] at h
          cases hr : decorLoop objects strand radius tilt disp (i + 1) rest crest with
          | none => simp [hr] at h
          | some ds =>
            simp only [hr, Option.some.injEq] at h
            subst h
            rcases ih crest (i + 1) ds hr with ⟨hlen, hget⟩
            constructor
            · simp only [List.length_cons, hlen]
              omega
            · intro j nm cn hj hcj
              cases j with
              | zero =>
                simp only [List.get?, Option.some.injEq] at hj hcj
                subst hj
                subst hcj
                exact ⟨ob, hf, by simp, by simp⟩
              | succ j =>
                simp only [List.get?] at hj hcj
                rcases hget j nm cn hj hcj with ⟨ob', hob', h1, h2⟩
                refine ⟨ob', hob', ?_, ?_⟩
                · have hidx : 2 * (j + 1) = 2 * j + 1 + 1 := by omega
                  have hpos : i + (j + 1) = (i + 1) + j := by omega
                  rw [hidx, hpos]
                  simpa using h1
                · have hidx : 2 * (j + 1) + 1 = (2 * j + 1) + 1 + 1 := by omega
                  have hpos : i + (j + 1) = (i + 1) + j := by omega
                  rw [hidx, hpos]
                  simpa using h2

theorem decorLoop_one (objects : List BObj) (strand : ℤ) (radius tilt disp : ℝ)
    (hs : ¬ strand = 2) :
    ∀ (refs : List String) (comps : List String) (i : ℕ) (out : List Decor),
      decorLoop objects strand radius tilt disp i refs comps = some out →
      out.length = refs.length ∧
      ∀ j nm, refs.get? j = some nm →
        ∃ ob, objects.find? (fun o => o.name = nm) = some ob ∧
          out.get? j = some ⟨Strand.ref, i + j, nm,
            ⟨ob.rotation.x, -tilt, -Real.pi⟩, ⟨radius, 0, 0⟩⟩ := by
  intro refs
  induction refs with
  | nil =>
    intro comps i out h
    simp only [decorLoop, Option.some.injEq] at h
    subst h
    exact ⟨rfl, fun j nm hj => absurd hj (by simp)⟩
  | cons hd rest ih =>
    intro comps i out h
    cases comps with
    | nil => simp [decorLoop] at h
    | cons chd crest =>
      simp only [decorLoop] at h
      cases hf : objects.find? (fun o => o.name = hd) with
      | none => simp [hf] at h
      | some ob =>
        simp only [hf] at h
        rw [if_neg hs] at h
        cases hr : decorLoop objects strand radius tilt disp (i + 1) rest crest with
        | none => simp [hr] at h
        | some ds =>
          simp only [hr, Option.some.injEq] at h
          subst h
          rcases ih crest (i + 1) ds hr with ⟨hlen, hget⟩
          constructor
          · simp [hlen]
          · intro j nm hj
            cases j with
            | zero =>
              simp only [List.get?, Option.some.injEq] at hj
              subst hj
              exact ⟨ob, hf, by simp⟩
            | succ j =>
              simp only [List.get?] at hj
              rcases hget j nm hj with ⟨ob', hob', h1⟩
              refine ⟨ob', hob', ?_⟩
              have hpos : i + (j + 1) = (i + 1) + j := by omega
              rw [hpos]
              simpa using h1

theorem decorLoop_isSome (objects : List BObj) (strand : ℤ) (radius tilt disp : ℝ) :
    ∀ (refs : List String) (comps : List String) (i : ℕ),
      refs.length ≤ comps.length →
      (∀ nm ∈ refs, nm ∈ objects.map BObj.name) →
      (strand = 2 → ∀ cn ∈ comps, cn ∈ objects.map BObj.name) →
      (decorLoop objects strand radius tilt disp i refs comps).isSome := by
  intro refs
  induction refs with
  | nil => intro comps i _ _ _; simp [decorLoop]
  | cons hd rest ih =>
    intro comps i hlen href hcomp
    cases comps with
    | nil => simp at hlen
    | cons chd crest =>
      rcases find_name_of_mem objects hd (href hd (by simp)) with ⟨ob, hob, _⟩
      have hrest := ih crest (i + 1) (by simpa using hlen)
        (fun nm hnm => href nm (by simp [hnm]))
        (fun h2 cn hcn => hcomp h2 cn (by simp [hcn]))
      rcases Option.isSome_iff_exists.mp hrest with ⟨ds, hds⟩
      by_cases hs : strand = 2
      · subst hs
        rcases find_name_of_mem objects chd (hcomp rfl chd (by simp)) with ⟨cob, hcob, _⟩
        simp [decorLoop, hob, hcob, hds]
      · simp [decorLoop, hob, hds, hs]

end chang_techniques

namespace helix_maker

theorem refPlace_isSome (objects : List BObj) (angle radius tilt height : ℝ) (loc : Vec3)
    (i : ℕ) (nm : String) (h : nm ∈ objects.map BObj.name) :
    (refPlace objects angle radius tilt height loc i nm).isSome := by
  rcases find_name_of_mem objects nm h with ⟨ob, hob, _⟩
  simp [refPlace, hob]

theorem compPlace_isSome (objects : List BObj) (angle radius tilt rotate height : ℝ)
    (loc : Vec3) (i : ℕ) (nm : String) (h : nm ∈ objects.map BObj.name) :
    (compPlace objects angle radius tilt rotate height loc i nm).isSome := by
  rcases find_name_of_mem objects nm h with ⟨ob, hob, _⟩
  simp [compPlace, hob]

theorem makeHelix_strands (collections : List String) (collect_name : String)
    (objects : List BObj) (reference : List String) (comp_fun : String → String)
    (comp : Bool) (strand : ℤ) (angle radius tilt rotate height : ℝ) (location : Vec3)
    (h1 : collect_name ∉ collections)
    (h2 : ∀ nm ∈ reference, nm ∈ objects.map BObj.name)
    (h3 : ∀ nm ∈ reference, comp_fun nm ∈ objects.map BObj.name) :
    ∃ first,
      placeLoop (refPlace objects angle radius tilt height location) 0
        (if comp then reference.map comp_fun else reference) = some first ∧
      first.length = reference.length ∧
      (strand < 2 →
        makeHelix collections collect_name objects reference comp_fun comp strand
          angle radius tilt rotate height location = some first) ∧
      (¬ strand < 2 → ∃ second,
        placeLoop (compPlace objects angle radius tilt rotate height location) 0
          (if comp then reference else reference.map comp_fun) = some second ∧
        second.length = reference.length ∧
        makeHelix collections collect_name objects reference comp_fun comp strand
          angle radius tilt rotate height location = some (first ++ second)) := by
  have hrefMem : ∀ nm ∈ (if comp then reference.map comp_fun else reference),
      nm ∈ objects.map BObj.name := by
    cases comp
    · simpa using h2
    · simp only [if_pos]
      intro nm hnm
      rcases List.mem_map.mp hnm with ⟨orig, horig, hmap⟩
      subst hmap
      exact h3 orig horig
  have hcomMem : ∀ nm ∈ (if comp then reference else reference.map comp_fun),
      nm ∈ objects.map BObj.name := by
    cases comp
    · simp only [if_neg Bool.false_ne_true]
      intro nm hnm
      rcases List.mem_map.mp hnm with ⟨orig, horig, hmap⟩
      subst hmap
      exact h3 orig horig
    · simpa using h2
  have hfs : (placeLoop (refPlace objects angle radius tilt height location) 0
      (if comp then reference.map comp_fun else reference)).isSome :=
    placeLoop_isSome _ _ 0 (fun j nm hnm =>
      refPlace_isSome objects angle radius tilt height location j nm (hrefMem nm hnm))
  rcases Option.isSome_iff_exists.mp hfs with ⟨first, hf⟩
  have hflen : first.length = reference.length := by
    have := placeLoop_length _ _ 0 first hf
    cases comp <;> simpa using this
  refine ⟨first, hf, hflen, ?_, ?_⟩
  · intro hst
    simp only [makeHelix, hf]
    rw [if_neg h1, if_pos hst]
  · intro hst
    have hss : (placeLoop (compPlace objects angle radius tilt rotate height location) 0
        (if comp then reference else reference.map comp_fun)).isSome :=
      placeLoop_isSome _ _ 0 (fun j nm hnm =>
        compPlace_isSome objects angle radius tilt rotate height location j nm (hcomMem nm hnm))
    rcases Option.isSome_iff_exists.mp hss with ⟨second, hsnd⟩
    have hslen : second.length = reference.length := by
      have := placeLoop_length _ _ 0 second hsnd
      cases comp <;> simpa using this
    refine ⟨second, hsnd, hslen, ?_⟩
    simp only [makeHelix, hf, hsnd]
    rw [if_neg h1, if_neg hst]

end helix_maker

namespace chang_techniques

theorem makeHelix_some (skeleton : List Rung) (objects : List BObj)
    (reference : List String) (comp_fun : String → Option String) (strand : ℤ)
    (radius tilt disp : ℝ)
    (hlen : reference.length ≤ skeleton.length)
    (hval : ∀ nm ∈ reference, nm ∈ objects.map BObj.name ∧
      ∃ cn, comp_fun nm = some cn ∧ cn ∈ objects.map BObj.name) :
    ∃ complement D,
      getComp reference comp_fun (objects.map BObj.name) = some complement ∧
      complement.length = reference.length ∧
      decorLoop objects strand radius tilt disp 0 reference complement = some D ∧
      makeHelix skeleton objects reference comp_fun strand radius tilt disp = some D := by
  have hg : (getComp reference comp_fun (objects.map BObj.name)).isSome :=
    getComp_isSome comp_fun (objects.map BObj.name) reference hval
  rcases Option.isSome_iff_exists.mp hg with ⟨complement, hc⟩
  rcases getComp_spec comp_fun (objects.map BObj.name) reference complement hc with
    ⟨hclen, hcget⟩
  have hcomMem : ∀ cn ∈ complement, cn ∈ objects.map BObj.name := by
    intro cn hcn
    rcases List.mem_iff_get?.mp hcn with ⟨j, hj⟩
    have hjlt : j < reference.length := by
      rw [← hclen]
      by_contra hge
      rw [List.get?_eq_none.mpr (by omega)] at hj
      exact absurd hj (by simp)
    rcases List.get?_eq_some.mpr ⟨hjlt, rfl⟩ with hr
    rcases hcget j (reference.get ⟨j, hjlt⟩) hr with ⟨_, cn', _, hcn', hout⟩
    rw [hout] at hj
    injection hj with hj
    subst hj
    exact hcn'
  have hds : (decorLoop objects strand radius tilt disp 0 reference complement).isSome :=
    decorLoop_isSome objects strand radius tilt disp reference complement 0
      (le_of_eq hclen.symm) (fun nm hnm => (hval nm hnm).1)
      (fun _ => hcomMem)
  rcases Option.isSome_iff_exists.mp hds with ⟨D, hD⟩
  refine ⟨complement, D, hc, hclen, hD, ?_⟩
  simp only [makeHelix]
  rw [if_pos hlen, hc]
  exact hD

end chang_techniques

theorem rungWorldPos_radial (r : chang_techniques.Rung) (radius : ℝ) :
    chang_techniques.rungWorldPos r ⟨radius, 0, 0⟩ =
      ⟨r.loc.x + radius * cos r.rotZAngle, r.loc.y + radius * sin r.rotZAngle, r.loc.z⟩ := by
  apply Vec3.ext3
  · show r.loc.x + (cos r.rotZAngle * radius - sin r.rotZAngle * 0) = _
    ring
  · show r.loc.y + (sin r.rotZAngle * radius + cos r.rotZAngle * 0) = _
    ring
  · show r.loc.z + 0 = r.loc.z
    ring

theorem rungWorldPos_offset (r : chang_techniques.Rung) (radius disp h : ℝ) :
    chang_techniques.rungWorldPos r ⟨radius * cos disp, radius * sin disp, h⟩ =
      ⟨r.loc.x + radius * cos (r.rotZAngle + disp),
       r.loc.y + radius * sin (r.rotZAngle + disp), r.loc.z + h⟩ := by
  apply Vec3.ext3
  · show r.loc.x + (cos r.rotZAngle * (radius * cos disp) -
        sin r.rotZAngle * (radius * sin disp)) = _
    rw [cos_add]
    ring
  · show r.loc.y + (sin r.rotZAngle * (radius * cos disp) +
        cos r.rotZAngle * (radius * sin disp)) = _
    rw [sin_add]
    ring
  · rfl

/-- Claim C1: the i-th reference-strand residue placed by helix_maker.makeHelix
sits on the parametric helix, at position
(radius cos (angle i) + loc x, radius sin (angle i) + loc y, i height + loc z)
with z Euler angle*i - pi and y Euler -tilt; and in the skeleton-based variant
the same world placement arises from rung i sitting at the base location raised
by i*height, its rotator rotated by base*i about z, and the reference residue
at local offset (radius, 0, 0). -/
theorem claim_C1_reference_residue_on_helix :
    (∀ (collections : List String) (collect_name : String) (objects : List BObj)
       (reference : List String) (comp_fun : String → String) (comp : Bool) (strand : ℤ)
       (angle radius tilt rotate height : ℝ) (location : Vec3) (i : ℕ),
      collect_name ∉ collections →
      (∀ nm ∈ reference, nm ∈ objects.map BObj.name) →
      (∀ nm ∈ reference, comp_fun nm ∈ objects.map BObj.name) →
      i < reference.length →
      ∃ L p, helix_maker.makeHelix collections collect_name objects reference comp_fun comp
          strand angle radius tilt rotate height location = some L ∧
        L.get? i = some p ∧ p.strand = Strand.ref ∧ p.idx = i ∧
        p.rotation.y = -tilt ∧ p.rotation.z = angle * (i : ℝ) - Real.pi ∧
        p.location = ⟨radius * cos (angle * (i : ℝ)) + location.x,
                      radius * sin (angle * (i : ℝ)) + location.y,
                      (i : ℝ) * height + location.z⟩) ∧
    (∀ (collections : List String) (collect_name : String) (num_objects : ℕ)
       (height base : ℝ) (location : Vec3) (objects : List BObj) (reference : List String)
       (comp_fun : String → Option String) (strand : ℤ) (radius tilt disp : ℝ) (i : ℕ),
      collect_name ∉ collections →
      reference.length ≤ num_objects →
      (∀ nm ∈ reference, nm ∈ objects.map BObj.name ∧
        ∃ cn, comp_fun nm = some cn ∧ cn ∈ objects.map BObj.name) →
      i < reference.length →
      ∃ skel fin D r d,
        chang_techniques.makeSkeleton collections collect_name num_objects height base
          location = some (skel, fin) ∧
        chang_techniques.makeHelix skel objects reference comp_fun strand radius tilt disp
          = some D ∧
        skel.get? i = some r ∧
        r.loc = ⟨location.x, location.y, location.z + (i : ℝ) * height⟩ ∧
        r.rotZAngle = base * (i : ℝ) ∧
        D.get? (if strand = 2 then 2 * i else i) = some d ∧
        d.strand = Strand.ref ∧ d.rungIdx = i ∧ d.location = ⟨radius, 0, 0⟩ ∧
        d.rotation.y = -tilt ∧
        chang_techniques.rungWorldPos r d.location =
          ⟨radius * cos (base * (i : ℝ)) + location.x,
           radius * sin (base * (i : ℝ)) + location.y,
           (i : ℝ) * height + location.z⟩ ∧
        (∀ v, chang_techniques.rungWorldRot r d.rotation v =
          euler ⟨d.rotation.x, -tilt, base * (i : ℝ) - Real.pi⟩ v)) := by
  constructor
  · intro collections collect_name objects reference comp_fun comp strand
      angle radius tilt rotate height location i h1 h2 h3 hi
    rcases helix_maker.makeHelix_strands collections collect_name objects reference comp_fun
      comp strand angle radius tilt rotate height location h1 h2 h3 with
      ⟨first, hf, hflen, hone, htwo⟩
    have hrlen : (if comp then reference.map comp_fun else reference).length
        = reference.length := by cases comp <;> simp
    have hil : i < (if comp then reference.map comp_fun else reference).length := by
      rw [hrlen]; exact hi
    have hnmGet := List.get?_eq_get hil
    have hfirstGet := helix_maker.placeLoop_get _ _ 0 first hf i _ hnmGet
    rw [Nat.zero_add] at hfirstGet
    have hmemRef : (if comp then reference.map comp_fun else reference).get ⟨i, hil⟩
        ∈ objects.map BObj.name := by
      have hmem := List.get_mem (if comp then reference.map comp_fun else reference) i hil
      cases comp
      · simp only [if_neg Bool.false_ne_true] at hmem ⊢
        exact h2 _ hmem
      · simp only [if_pos] at hmem ⊢
        rcases List.mem_map.mp hmem with ⟨orig, horig, hmap⟩
        rw [← hmap]
        exact h3 orig horig
    rcases find_name_of_mem objects _ hmemRef with ⟨ob, hob, _⟩
    have hfGet : first.get? i = some
        { strand := Strand.ref
          idx := i
          newName := "Reference_" ++ toString i ++ "_"
            ++ (if comp then reference.map comp_fun else reference).get ⟨i, hil⟩
          srcName := (if comp then reference.map comp_fun else reference).get ⟨i, hil⟩
          rotation := ⟨ob.rotation.x, -tilt, angle * (i : ℝ) - Real.pi⟩
          location := ⟨radius * cos (angle * (i : ℝ)) + location.x,
                       radius * sin (angle * (i : ℝ)) + location.y,
                       (i : ℝ) * height + location.z⟩ } := by
      rw [hfirstGet]
      unfold helix_maker.refPlace
      rw [hob]
      rfl
    have hpack : ∃ p, first.get? i = some p ∧ p.strand = Strand.ref ∧ p.idx = i ∧
        p.rotation.y = -tilt ∧ p.rotation.z = angle * (i : ℝ) - Real.pi ∧
        p.location = ⟨radius * cos (angle * (i : ℝ)) + location.x,
                      radius * sin (angle * (i : ℝ)) + location.y,
                      (i : ℝ) * height + location.z⟩ := by
      refine ⟨_, hfGet, ?_, ?_, ?_, ?_, ?_⟩
      all_goals rfl
    rcases hpack with ⟨p, hp, hp1, hp2, hp3, hp4, hp5⟩
    by_cases hst : strand < 2
    · exact ⟨first, p, hone hst, hp, hp1, hp2, hp3, hp4, hp5⟩
    · rcases htwo hst with ⟨second, _, _, hmk⟩
      refine ⟨first ++ second, p, hmk, ?_, hp1, hp2, hp3, hp4, hp5⟩
      rw [List.get?_append (by rw [hflen]; exact hi)]
      exact hp
  · intro collections collect_name num_objects height base location objects reference
      comp_fun strand radius tilt disp i h1 hnum hval hi
    have hspec := chang_techniques.skelLoop_spec height base num_objects 0 location
    have hskel : chang_techniques.makeSkeleton collections collect_name num_objects height
        base location
        = some (chang_techniques.skelLoop height base 0 num_objects location) := by
      simp only [chang_techniques.makeSkeleton]
      rw [if_neg h1]
    have hslen : (chang_techniques.skelLoop height base 0 num_objects location).1.length
        = num_objects := hspec.2.1
    rcases chang_techniques.makeHelix_some
      (chang_techniques.skelLoop height base 0 num_objects location).1 objects reference
      comp_fun strand radius tilt disp (by rw [hslen]; exact hnum) hval with
      ⟨complement, D, hc, hclen, hdec, hmk⟩
    have hrg := hspec.2.2 i (by omega)
    rw [Nat.zero_add] at hrg
    have hrz : (⟨i, ⟨location.x, location.y, location.z + (i : ℝ) * height⟩,
        base * (((0 : ℕ) : ℝ) + (i : ℝ))⟩ : chang_techniques.Rung).rotZAngle
        = base * (i : ℝ) := by
      show base * (((0 : ℕ) : ℝ) + (i : ℝ)) = base * (i : ℝ)
      push_cast
      ring
    have hnmGet := List.get?_eq_get hi
    have hcnGet : ∃ cn, complement.get? i = some cn := by
      rcases (chang_techniques.getComp_spec comp_fun (objects.map BObj.name) reference
        complement hc).2 i _ hnmGet with ⟨_, cn, _, _, hout⟩
      exact ⟨cn, hout⟩
    rcases hcnGet with ⟨cn, hcn⟩
    have hworld : ∀ d : chang_techniques.Decor,
        d.location = ⟨radius, 0, 0⟩ →
        d.rotation = ⟨(d.rotation.x), -tilt, -Real.pi⟩ →
        chang_techniques.rungWorldPos
          ⟨i, ⟨location.x, location.y, location.z + (i : ℝ) * height⟩,
           base * (((0 : ℕ) : ℝ) + (i : ℝ))⟩ d.location =
          ⟨radius * cos (base * (i : ℝ)) + location.x,
           radius * sin (base * (i : ℝ)) + location.y,
           (i : ℝ) * height + location.z⟩ ∧
        (∀ v, chang_techniques.rungWorldRot
          ⟨i, ⟨location.x, location.y, location.z + (i : ℝ) * height⟩,
           base * (((0 : ℕ) : ℝ) + (i : ℝ))⟩ d.rotation v =
          euler ⟨d.rotation.x, -tilt, base * (i : ℝ) - Real.pi⟩ v) := by
      intro d hdloc hdrot
      constructor
      · rw [hdloc, rungWorldPos_radial, hrz]
        apply Vec3.ext3
        · show location.x + radius * cos (base * (i : ℝ)) = _
          ring
        · show location.y + radius * sin (base * (i : ℝ)) = _
          ring
        · show location.z + (i : ℝ) * height = _
          ring
      · intro v
        show rotZ _ (euler d.rotation v) = _
        rw [hrz, hdrot, euler_z_shift]
        congr 1
    by_cases hs2 : strand = 2
    · rcases chang_techniques.decorLoop_two objects strand radius tilt disp hs2 reference
        complement 0 D hdec with ⟨_, hget⟩
      rcases hget i _ cn hnmGet hcn with ⟨ob, hob, hrefGet, _⟩
      rw [Nat.zero_add] at hrefGet
      have hdp : ∃ d : chang_techniques.Decor, D.get? (2 * i) = some d ∧
          d.strand = Strand.ref ∧ d.rungIdx = i ∧ d.location = ⟨radius, 0, 0⟩ ∧
          d.rotation.y = -tilt ∧ d.rotation = ⟨(d.rotation.x), -tilt, -Real.pi⟩ := by
        refine ⟨_, hrefGet, ?_, ?_, ?_, ?_, ?_⟩
        all_goals rfl
      rcases hdp with ⟨d, hd, hd1, hd2, hd3, hd4, hd5⟩
      rcases hworld d hd3 hd5 with ⟨hw1, hw2⟩
      refine ⟨_, _, D, _, d, hskel, hmk, hrg, rfl, hrz, ?_, hd1, hd2, hd3, hd4, hw1, hw2⟩
      rw [if_pos hs2]
      exact hd
    · rcases chang_techniques.decorLoop_one objects strand radius tilt disp hs2 reference
        complement 0 D hdec with ⟨_, hget⟩
      rcases hget i _ hnmGet with ⟨ob, hob, hrefGet⟩
      rw [Nat.zero_add] at hrefGet
      have hdp : ∃ d : chang_techniques.Decor, D.get? i = some d ∧
          d.strand = Strand.ref ∧ d.rungIdx = i ∧ d.location = ⟨radius, 0, 0⟩ ∧
          d.rotation.y = -tilt ∧ d.rotation = ⟨(d.rotation.x), -tilt, -Real.pi⟩ := by
        refine ⟨_, hrefGet, ?_, ?_, ?_, ?_, ?_⟩
        all_goals rfl
      rcases hdp with ⟨d, hd, hd1, hd2, hd3, hd4, hd5⟩
      rcases hworld d hd3 hd5 with ⟨hw1, hw2⟩
      refine ⟨_, _, D, _, d, hskel, hmk, hrg, rfl, hrz, ?_, hd1, hd2, hd3, hd4, hw1, hw2⟩
      rw [if_neg hs2]
      exact hd

/-- Witness for claim C1: a one-residue helix in both variants, with angle 0,
radius 1, tilt 0 and height 1 from the origin. -/
theorem claim_C1_witness :
    (∃ L p, helix_maker.makeHelix [] "X" [⟨"A", ⟨0, 0, 0⟩⟩, ⟨"T", ⟨0, 0, 0⟩⟩] ["A"]
        helix_maker.complementDNA false 2 0 1 0 0 1 ⟨0, 0, 0⟩ = some L ∧
      L.get? 0 = some p ∧ p.strand = Strand.ref ∧ p.idx = 0 ∧
      p.rotation.y = -0 ∧ p.rotation.z = 0 * ((0 : ℕ) : ℝ) - Real.pi ∧
      p.location = ⟨1 * cos (0 * ((0 : ℕ) : ℝ)) + (⟨0, 0, 0⟩ : Vec3).x,
                    1 * sin (0 * ((0 : ℕ) : ℝ)) + (⟨0, 0, 0⟩ : Vec3).y,
                    ((0 : ℕ) : ℝ) * 1 + (⟨0, 0, 0⟩ : Vec3).z⟩) ∧
    (∃ skel fin D r d,
      chang_techniques.makeSkeleton [] "Y" 1 1 0 ⟨0, 0, 0⟩ = some (skel, fin) ∧
      chang_techniques.makeHelix skel [⟨"A1", ⟨0, 0, 0⟩⟩, ⟨"T1", ⟨0, 0, 0⟩⟩] ["A1"]
        chang_techniques.complementDNA 2 1 0 0 = some D ∧
      skel.get? 0 = some r ∧
      r.loc = ⟨(⟨0, 0, 0⟩ : Vec3).x, (⟨0, 0, 0⟩ : Vec3).y,
               (⟨0, 0, 0⟩ : Vec3).z + ((0 : ℕ) : ℝ) * 1⟩ ∧
      r.rotZAngle = 0 * ((0 : ℕ) : ℝ) ∧
      D.get? (if (2 : ℤ) = 2 then 2 * 0 else 0) = some d ∧
      d.strand = Strand.ref ∧ d.rungIdx = 0 ∧ d.location = ⟨1, 0, 0⟩ ∧
      d.rotation.y = -0 ∧
      chang_techniques.rungWorldPos r d.location =
        ⟨1 * cos (0 * ((0 : ℕ) : ℝ)) + (⟨0, 0, 0⟩ : Vec3).x,
         1 * sin (0 * ((0 : ℕ) : ℝ)) + (⟨0, 0, 0⟩ : Vec3).y,
         ((0 : ℕ) : ℝ) * 1 + (⟨0, 0, 0⟩ : Vec3).z⟩ ∧
      (∀ v, chang_techniques.rungWorldRot r d.rotation v =
        euler ⟨d.rotation.x, -0, 0 * ((0 : ℕ) : ℝ) - Real.pi⟩ v)) :=
  ⟨claim_C1_reference_residue_on_helix.1 [] "X" [⟨"A", ⟨0, 0, 0⟩⟩, ⟨"T", ⟨0, 0, 0⟩⟩] ["A"]
      helix_maker.complementDNA false 2 0 1 0 0 1 ⟨0, 0, 0⟩ 0
      (by decide) (by decide) (by decide) (by decide),
   claim_C1_reference_residue_on_helix.2 [] "Y" 1 1 0 ⟨0, 0, 0⟩
      [⟨"A1", ⟨0, 0, 0⟩⟩, ⟨"T1", ⟨0, 0, 0⟩⟩] ["A1"] chang_techniques.complementDNA 2 1 0 0 0
      (by decide) (by decide)
      (by
        intro nm hnm
        simp only [List.mem_singleton] at hnm
        subst hnm
        exact ⟨by decide, "T1", by decide, by decide⟩)
      (by decide)⟩

/-- Claim C9: when a location list is passed and the collection name is fresh,
makeSkeleton raises entry 2 of the list by exactly num_objects * height while
entries 0 and 1 are unchanged, and rung i reads the list before the i-th
increment, so it sits at the initial z plus i * height. -/
theorem claim_C9_makeSkeleton_mutates_location :
    ∀ (collections : List String) (collect_name : String) (num_objects : ℕ)
      (height base : ℝ) (location : Vec3),
      collect_name ∉ collections →
      ∃ skel fin, chang_techniques.makeSkeleton collections collect_name num_objects height
          base location = some (skel, fin) ∧
        fin.x = location.x ∧ fin.y = location.y ∧
        fin.z = location.z + (num_objects : ℝ) * height ∧
        skel.length = num_objects ∧
        ∀ i, i < num_objects → ∃ r, skel.get? i = some r ∧
          r.loc = ⟨location.x, location.y, location.z + (i : ℝ) * height⟩ ∧
          r.rotZAngle = base * (i : ℝ) := by
  intro collections collect_name num_objects height base location h1
  have hspec := chang_techniques.skelLoop_spec height base num_objects 0 location
  refine ⟨(chang_techniques.skelLoop height base 0 num_objects location).1,
    (chang_techniques.skelLoop height base 0 num_objects location).2, ?_, ?_, ?_, ?_,
    hspec.2.1, ?_⟩
  · simp only [chang_techniques.makeSkeleton]
    rw [if_neg h1]
  · rw [hspec.1]
  · rw [hspec.1]
  · rw [hspec.1]
  · intro i hi
    have hrg := hspec.2.2 i hi
    rw [Nat.zero_add] at hrg
    refine ⟨_, hrg, rfl, ?_⟩
    show base * (((0 : ℕ) : ℝ) + (i : ℝ)) = base * (i : ℝ)
    push_cast
    ring

/-- Witness for claim C9 with two rungs of height 1 from the origin. -/
theorem claim_C9_witness :
    ∃ skel fin, chang_techniques.makeSkeleton [] "Z" 2 1 0 ⟨0, 0, 0⟩ = some (skel, fin) ∧
      fin.x = (⟨0, 0, 0⟩ : Vec3).x ∧ fin.y = (⟨0, 0, 0⟩ : Vec3).y ∧
      fin.z = (⟨0, 0, 0⟩ : Vec3).z + ((2 : ℕ) : ℝ) * 1 ∧
      skel.length = 2 ∧
      ∀ i, i < 2 → ∃ r, skel.get? i = some r ∧
        r.loc = ⟨(⟨0, 0, 0⟩ : Vec3).x, (⟨0, 0, 0⟩ : Vec3).y,
                 (⟨0, 0, 0⟩ : Vec3).z + (i : ℝ) * 1⟩ ∧
        r.rotZAngle = 0 * (i : ℝ) :=
  claim_C9_makeSkeleton_mutates_location [] "Z" 2 1 0 ⟨0, 0, 0⟩ (by decide)

theorem Vec3.add_def (a b : Vec3) : a + b = ⟨a.x + b.x, a.y + b.y, a.z + b.z⟩ := rfl

theorem Vec3.sub_def (a b : Vec3) : a - b = ⟨a.x - b.x, a.y - b.y, a.z - b.z⟩ := rfl

/-- Claim C4: in a two-strand helix the complement residue at rung i differs
from the reference residue by exactly the tilt and the phase: the reference is
tilted by -tilt about its radial axis and the complement by +tilt with an extra
x rotation of pi, the complement z Euler exceeds the reference one by the
displacement, and the complement position is the reference position rotated by
the displacement about the helix axis and raised by 2 radius sin tilt. -/
theorem claim_C4_complement_tilt_and_phase :
    (∀ (collections : List String) (collect_name : String) (objects : List BObj)
       (reference : List String) (comp_fun : String → String) (comp : Bool)
       (angle radius tilt rotate height : ℝ) (location : Vec3) (i : ℕ),
      collect_name ∉ collections →
      (∀ nm ∈ reference, nm ∈ objects.map BObj.name) →
      (∀ nm ∈ reference, comp_fun nm ∈ objects.map BObj.name) →
      i < reference.length →
      ∃ L pr pc, helix_maker.makeHelix collections collect_name objects reference comp_fun
          comp 2 angle radius tilt rotate height location = some L ∧
        L.get? i = some pr ∧ L.get? (reference.length + i) = some pc ∧
        pr.strand = Strand.ref ∧ pc.strand = Strand.comp ∧
        pr.rotation.y = -tilt ∧ pc.rotation.x = Real.pi ∧ pc.rotation.y = tilt ∧
        pc.rotation.z = pr.rotation.z + rotate ∧
        pc.location = location + rotZ rotate (pr.location - location)
          + ⟨0, 0, 2 * radius * sin tilt⟩) ∧
    (∀ (skeleton : List chang_techniques.Rung) (objects : List BObj)
       (reference : List String) (comp_fun : String → Option String)
       (radius tilt disp : ℝ) (i : ℕ),
      reference.length ≤ skeleton.length →
      (∀ nm ∈ reference, nm ∈ objects.map BObj.name ∧
        ∃ cn, comp_fun nm = some cn ∧ cn ∈ objects.map BObj.name) →
      i < reference.length →
      ∃ D dr dc, chang_techniques.makeHelix skeleton objects reference comp_fun 2 radius
          tilt disp = some D ∧
        D.get? (2 * i) = some dr ∧ D.get? (2 * i + 1) = some dc ∧
        dr.strand = Strand.ref ∧ dc.strand = Strand.comp ∧
        dr.rotation.y = -tilt ∧ dc.rotation.x = Real.pi ∧ dc.rotation.y = tilt ∧
        dc.rotation.z = dr.rotation.z + disp ∧
        dc.location = rotZ disp dr.location + ⟨0, 0, 2 * radius * sin tilt⟩) := by
  constructor
  · intro collections collect_name objects reference comp_fun comp
      angle radius tilt rotate height location i h1 h2 h3 hi
    rcases helix_maker.makeHelix_strands collections collect_name objects reference comp_fun
      comp 2 angle radius tilt rotate height location h1 h2 h3 with
      ⟨first, hf, hflen, _, htwo⟩
    rcases htwo (by omega) with ⟨second, hsnd, hslen, hmk⟩
    have hrlen : (if comp then reference.map comp_fun else reference).length
        = reference.length := by cases comp <;> simp
    have hclen : (if comp then reference else reference.map comp_fun).length
        = reference.length := by cases comp <;> simp
    have hil : i < (if comp then reference.map comp_fun else reference).length := by
      rw [hrlen]; exact hi
    have hil2 : i < (if comp then reference else reference.map comp_fun).length := by
      rw [hclen]; exact hi
    have hfirstGet := helix_maker.placeLoop_get _ _ 0 first hf i _ (List.get?_eq_get hil)
    have hsecondGet := helix_maker.placeLoop_get _ _ 0 second hsnd i _ (List.get?_eq_get hil2)
    rw [Nat.zero_add] at hfirstGet hsecondGet
    have hmemRef : (if comp then reference.map comp_fun else reference).get ⟨i, hil⟩
        ∈ objects.map BObj.name := by
      have hmem := List.get_mem (if comp then reference.map comp_fun else reference) i hil
      cases comp
      · simp only [if_neg Bool.false_ne_true] at hmem ⊢
        exact h2 _ hmem
      · simp only [if_pos] at hmem ⊢
        rcases List.mem_map.mp hmem with ⟨orig, horig, hmap⟩
        rw [← hmap]
        exact h3 orig horig
    have hmemCom : (if comp then reference else reference.map comp_fun).get ⟨i, hil2⟩
        ∈ objects.map BObj.name := by
      have hmem := List.get_mem (if comp then reference else reference.map comp_fun) i hil2
      cases comp
      · simp only [if_neg Bool.false_ne_true] at hmem ⊢
        rcases List.mem_map.mp hmem with ⟨orig, horig, hmap⟩
        rw [← hmap]
        exact h3 orig horig
      · simp only [if_pos] at hmem ⊢
        exact h2 _ hmem
    rcases find_name_of_mem objects _ hmemRef with ⟨ob, hob, _⟩
    rcases find_name_of_mem objects _ hmemCom with ⟨cob, hcob, _⟩
    have hfGet : first.get? i = some
        { strand := Strand.ref
          idx := i
          newName := "Reference_" ++ toString i ++ "_"
            ++ (if comp then reference.map comp_fun else reference).get ⟨i, hil⟩
          srcName := (if comp then reference.map comp_fun else reference).get ⟨i, hil⟩
          rotation := ⟨ob.rotation.x, -tilt, angle * (i : ℝ) - Real.pi⟩
          location := ⟨radius * cos (angle * (i : ℝ)) + location.x,
                       radius * sin (angle * (i : ℝ)) + location.y,
                       (i : ℝ) * height + location.z⟩ } := by
      rw [hfirstGet]
      unfold helix_maker.refPlace
      rw [hob]
      rfl
    have hsGet : second.get? i = some
        { strand := Strand.comp
          idx := i
          newName := "Complement_" ++ toString i ++ "_"
            ++ (if comp then reference else reference.map comp_fun).get ⟨i, hil2⟩
          srcName := (if comp then reference else reference.map comp_fun).get ⟨i, hil2⟩
          rotation := ⟨Real.pi, tilt, angle * (i : ℝ) + rotate - Real.pi⟩
          location := ⟨radius * cos (angle * (i : ℝ) + rotate) + location.x,
                       radius * sin (angle * (i : ℝ) + rotate) + location.y,
                       2 * radius * sin tilt + (i : ℝ) * height + location.z⟩ } := by
      rw [hsecondGet]
      unfold helix_maker.compPlace
      rw [hcob]
      rfl
    have hLr : (first ++ second).get? i = first.get? i :=
      List.get?_append (by rw [hflen]; exact hi)
    have hLc : (first ++ second).get? (reference.length + i) = second.get? i := by
      rw [List.get?_append_right (by omega)]
      congr 1
      omega
    have hpack : ∃ pr pc, first.get? i = some pr ∧ second.get? i = some pc ∧
        pr.strand = Strand.ref ∧ pc.strand = Strand.comp ∧
        pr.rotation.y = -tilt ∧ pc.rotation.x = Real.pi ∧ pc.rotation.y = tilt ∧
        pc.rotation.z = pr.rotation.z + rotate ∧
        pc.location = location + rotZ rotate (pr.location - location)
          + ⟨0, 0, 2 * radius * sin tilt⟩ := by
      refine ⟨_, _, hfGet, hsGet, rfl, rfl, rfl, rfl, rfl, ?_, ?_⟩
      · show angle * (i : ℝ) + rotate - Real.pi = (angle * (i : ℝ) - Real.pi) + rotate
        ring
      · simp only [Vec3.add_def, Vec3.sub_def, rotZ]
        apply Vec3.ext3
        · show radius * cos (angle * (i : ℝ) + rotate) + location.x = _
          rw [Real.cos_add]
          ring
        · show radius * sin (angle * (i : ℝ) + rotate) + location.y = _
          rw [Real.sin_add]
          ring
        · show 2 * radius * sin tilt + (i : ℝ) * height + location.z = _
          ring
    rcases hpack with ⟨pr, pc, hpr, hpc, u1, u2, u3, u4, u5, u6, u7⟩
    exact ⟨first ++ second, pr, pc, hmk, hLr.trans hpr, hLc.trans hpc,
      u1, u2, u3, u4, u5, u6, u7⟩
  · intro skeleton objects reference comp_fun radius tilt disp i hlen hval hi
    rcases chang_techniques.makeHelix_some skeleton objects reference comp_fun 2 radius tilt
      disp hlen hval with ⟨complement, D, hc, hclen, hdec, hmk⟩
    have hnmGet := List.get?_eq_get hi
    have hcnGet : ∃ cn, complement.get? i = some cn := by
      rcases (chang_techniques.getComp_spec comp_fun (objects.map BObj.name) reference
        complement hc).2 i _ hnmGet with ⟨_, cn, _, _, hout⟩
      exact ⟨cn, hout⟩
    rcases hcnGet with ⟨cn, hcn⟩
    rcases chang_techniques.decorLoop_two objects 2 radius tilt disp rfl reference
      complement 0 D hdec with ⟨_, hget⟩
    rcases hget i _ cn hnmGet hcn with ⟨ob, hob, hrefGet, hcomGet⟩
    have hpack : ∃ dr dc, D.get? (2 * i) = some dr ∧ D.get? (2 * i + 1) = some dc ∧
        dr.strand = Strand.ref ∧ dc.strand = Strand.comp ∧
        dr.rotation.y = -tilt ∧ dc.rotation.x = Real.pi ∧ dc.rotation.y = tilt ∧
        dc.rotation.z = dr.rotation.z + disp ∧
        dc.location = rotZ disp dr.location + ⟨0, 0, 2 * radius * sin tilt⟩ := by
      refine ⟨_, _, hrefGet, hcomGet, rfl, rfl, rfl, rfl, rfl, ?_, ?_⟩
      · show disp - Real.pi = -Real.pi + disp
        ring
      · simp only [Vec3.add_def, rotZ]
        apply Vec3.ext3
        · show radius * cos disp = cos disp * radius - sin disp * 0 + 0
          ring
        · show radius * sin disp = sin disp * radius + cos disp * 0 + 0
          ring
        · show 2 * radius * sin tilt = 0 + 2 * radius * sin tilt
          ring
    rcases hpack with ⟨dr, dc, hdr, hdc, u1, u2, u3, u4, u5, u6, u7⟩
    exact ⟨D, dr, dc, hmk, hdr, hdc, u1, u2, u3, u4, u5, u6, u7⟩

/-- Witness for claim C4: a one-rung two-strand helix in both variants. -/
theorem claim_C4_witness :
    (∃ L pr pc, helix_maker.makeHelix [] "X" [⟨"A", ⟨0, 0, 0⟩⟩, ⟨"T", ⟨0, 0, 0⟩⟩] ["A"]
        helix_maker.complementDNA false 2 0 1 0 0 1 ⟨0, 0, 0⟩ = some L ∧
      L.get? 0 = some pr ∧ L.get? (List.length ["A"] + 0) = some pc ∧
      pr.strand = Strand.ref ∧ pc.strand = Strand.comp ∧
      pr.rotation.y = -0 ∧ pc.rotation.x = Real.pi ∧ pc.rotation.y = 0 ∧
      pc.rotation.z = pr.rotation.z + 0 ∧
      pc.location = ⟨0, 0, 0⟩ + rotZ 0 (pr.location - ⟨0, 0, 0⟩) + ⟨0, 0, 2 * 1 * sin 0⟩) ∧
    (∃ D dr dc, chang_techniques.makeHelix [⟨0, ⟨0, 0, 0⟩, 0⟩]
        [⟨"A1", ⟨0, 0, 0⟩⟩, ⟨"T1", ⟨0, 0, 0⟩⟩] ["A1"] chang_techniques.complementDNA 2 1 0 0
        = some D ∧
      D.get? (2 * 0) = some dr ∧ D.get? (2 * 0 + 1) = some dc ∧
      dr.strand = Strand.ref ∧ dc.strand = Strand.comp ∧
      dr.rotation.y = -0 ∧ dc.rotation.x = Real.pi ∧ dc.rotation.y = 0 ∧
      dc.rotation.z = dr.rotation.z + 0 ∧
      dc.location = rotZ 0 dr.location + ⟨0, 0, 2 * 1 * sin 0⟩) :=
  ⟨claim_C4_complement_tilt_and_phase.1 [] "X" [⟨"A", ⟨0, 0, 0⟩⟩, ⟨"T", ⟨0, 0, 0⟩⟩] ["A"]
      helix_maker.complementDNA false 0 1 0 0 1 ⟨0, 0, 0⟩ 0
      (by decide) (by decide) (by decide) (by decide),
   claim_C4_complement_tilt_and_phase.2 [⟨0, ⟨0, 0, 0⟩, 0⟩]
      [⟨"A1", ⟨0, 0, 0⟩⟩, ⟨"T1", ⟨0, 0, 0⟩⟩] ["A1"] chang_techniques.complementDNA 1 0 0 0
      (by decide)
      (by
        intro nm hnm
        simp only [List.mem_singleton] at hnm
        subst hnm
        exact ⟨by decide, "T1", by decide, by decide⟩)
      (by decide)⟩

/-- Claim C2: the two generations of the helix builder are equivalent in
observable geometry.  With angle, rotate, height and location of
helix_maker.makeHelix identified with base, disp, height and location of the
chang_techniques pipeline, and the same candidate objects, reference sequence
and complement function, the world position of every placed residue and its
composed world rotation, as a function on vectors, agree between
helix_maker.makeHelix and makeSkeleton followed by makeHelix, on both strands
and at every rung, and the residues are copies of the same source objects. -/
theorem claim_C2_generations_equivalent :
    ∀ (collections collections2 : List String) (collect_name collect_name2 : String)
      (objects : List BObj) (reference : List String) (comp_fun : String → String)
      (strand : ℤ) (base radius tilt disp height : ℝ) (location : Vec3) (i : ℕ),
      collect_name ∉ collections → collect_name2 ∉ collections2 →
      (∀ nm ∈ reference, nm ∈ objects.map BObj.name) →
      (∀ nm ∈ reference, comp_fun nm ∈ objects.map BObj.name) →
      i < reference.length →
      ∃ L skel fin D,
        helix_maker.makeHelix collections collect_name objects reference comp_fun false
          strand base radius tilt disp height location = some L ∧
        chang_techniques.makeSkeleton collections2 collect_name2 reference.length height
          base location = some (skel, fin) ∧
        chang_techniques.makeHelix skel objects reference (fun nm => some (comp_fun nm))
          strand radius tilt disp = some D ∧
        (∃ r pr dr, skel.get? i = some r ∧ L.get? i = some pr ∧
          D.get? (if strand = 2 then 2 * i else i) = some dr ∧
          pr.srcName = dr.srcName ∧
          pr.location = chang_techniques.rungWorldPos r dr.location ∧
          (∀ v, euler pr.rotation v = chang_techniques.rungWorldRot r dr.rotation v)) ∧
        (strand = 2 → ∃ r pc dc, skel.get? i = some r ∧
          L.get? (reference.length + i) = some pc ∧ D.get? (2 * i + 1) = some dc ∧
          pc.srcName = dc.srcName ∧
          pc.location = chang_techniques.rungWorldPos r dc.location ∧
          (∀ v, euler pc.rotation v = chang_techniques.rungWorldRot r dc.rotation v)) := by
  intro collections collections2 collect_name collect_name2 objects reference comp_fun
    strand base radius tilt disp height location i h1 h1b h2 h3 hi
  rcases helix_maker.makeHelix_strands collections collect_name objects reference comp_fun
    false strand base radius tilt disp height location h1 h2 h3 with
    ⟨first, hf, hflen, hone, htwo⟩
  have hspec := chang_techniques.skelLoop_spec height base reference.length 0 location
  have hskel : chang_techniques.makeSkeleton collections2 collect_name2 reference.length
      height base location
      = some (chang_techniques.skelLoop height base 0 reference.length location) := by
    simp only [chang_techniques.makeSkeleton]
    rw [if_neg h1b]
  have hslen : (chang_techniques.skelLoop height base 0 reference.length location).1.length
      = reference.length := hspec.2.1
  have hval : ∀ nm ∈ reference, nm ∈ objects.map BObj.name ∧
      ∃ cn, (fun nm => some (comp_fun nm)) nm = some cn ∧ cn ∈ objects.map BObj.name :=
    fun nm hnm => ⟨h2 nm hnm, comp_fun nm, rfl, h3 nm hnm⟩
  rcases chang_techniques.makeHelix_some
    (chang_techniques.skelLoop height base 0 reference.length location).1 objects reference
    (fun nm => some (comp_fun nm)) strand radius tilt disp (by rw [hslen]) hval with
    ⟨complement, D, hc, hclen, hdec, hmk⟩
  have hrg := hspec.2.2 i hi
  rw [Nat.zero_add] at hrg
  have hrz : (⟨i, ⟨location.x, location.y, location.z + (i : ℝ) * height⟩,
      base * (((0 : ℕ) : ℝ) + (i : ℝ))⟩ : chang_techniques.Rung).rotZAngle
      = base * (i : ℝ) := by
    show base * (((0 : ℕ) : ℝ) + (i : ℝ)) = base * (i : ℝ)
    push_cast
    ring
  have hnmGet := List.get?_eq_get hi
  have hcnEq : complement.get? i = some (comp_fun (reference.get ⟨i, hi⟩)) := by
    rcases (chang_techniques.getComp_spec (fun nm => some (comp_fun nm))
      (objects.map BObj.name) reference complement hc).2 i _ hnmGet with
      ⟨_, cn, hcnf, _, hout⟩
    simp only [Option.some.injEq] at hcnf
    rw [hout, hcnf]
  rcases find_name_of_mem objects _ (h2 _ (List.get_mem reference i hi)) with ⟨ob, hob, _⟩
  rcases find_name_of_mem objects _ (h3 _ (List.get_mem reference i hi)) with ⟨cob, hcob, _⟩
  have hil : i < (if false then reference.map comp_fun else reference).length := by
    simpa using hi
  have hfirstGet := helix_maker.placeLoop_get _ _ 0 first hf i _ (List.get?_eq_get hil)
  rw [Nat.zero_add] at hfirstGet
  have hfGet : first.get? i = some
      { strand := Strand.ref
        idx := i
        newName := "Reference_" ++ toString i ++ "_" ++ reference.get ⟨i, hi⟩
        srcName := reference.get ⟨i, hi⟩
        rotation := ⟨ob.rotation.x, -tilt, base * (i : ℝ) - Real.pi⟩
        location := ⟨radius * cos (base * (i : ℝ)) + location.x,
                     radius * sin (base * (i : ℝ)) + location.y,
                     (i : ℝ) * height + location.z⟩ } := by
    rw [hfirstGet]
    unfold helix_maker.refPlace
    rw [show (if false then reference.map comp_fun else reference).get ⟨i, hil⟩
      = reference.get ⟨i, hi⟩ from rfl]
    rw [hob]
    rfl
  have hrefSide : ∀ (dr : chang_techniques.Decor)
      (hdrS : dr.srcName = reference.get ⟨i, hi⟩)
      (hdrR : dr.rotation = ⟨ob.rotation.x, -tilt, -Real.pi⟩)
      (hdrL : dr.location = ⟨radius, 0, 0⟩)
      (pr : Placed) (hprS : first.get? i = some pr),
      pr.srcName = dr.srcName ∧
      pr.location = chang_techniques.rungWorldPos
        ⟨i, ⟨location.x, location.y, location.z + (i : ℝ) * height⟩,
         base * (((0 : ℕ) : ℝ) + (i : ℝ))⟩ dr.location ∧
      (∀ v, euler pr.rotation v = chang_techniques.rungWorldRot
        ⟨i, ⟨location.x, location.y, location.z + (i : ℝ) * height⟩,
         base * (((0 : ℕ) : ℝ) + (i : ℝ))⟩ dr.rotation v) := by
    intro dr hdrS hdrR hdrL pr hprS
    rw [hfGet] at hprS
    injection hprS with hprS
    subst hprS
    refine ⟨by rw [hdrS], ?_, ?_⟩
    · rw [hdrL, rungWorldPos_radial, hrz]
      apply Vec3.ext3
      · show radius * cos (base * (i : ℝ)) + location.x = _
        ring
      · show radius * sin (base * (i : ℝ)) + location.y = _
        ring
      · show (i : ℝ) * height + location.z = _
        ring
    · intro v
      show euler _ v = rotZ _ (euler dr.rotation v)
      rw [hrz, hdrR, euler_z_shift]
      congr 1
  by_cases hs2 : strand = 2
  · rcases chang_techniques.decorLoop_two objects strand radius tilt disp hs2 reference
      complement 0 D hdec with ⟨_, hget⟩
    rcases hget i _ _ hnmGet hcnEq with ⟨ob', hob', hrefGet, hcomGet⟩
    rw [Nat.zero_add] at hrefGet hcomGet
    have hobEq : ob' = ob := by
      rw [hob] at hob'
      injection hob' with h
      exact h.symm
    rw [hobEq] at hrefGet
    rcases htwo (by omega) with ⟨second, hsnd, hslen2, hmk2⟩
    have hil2 : i < (if false then reference else reference.map comp_fun).length := by
      simpa using hi
    have hsecondGet := helix_maker.placeLoop_get _ _ 0 second hsnd i _ (List.get?_eq_get hil2)
    rw [Nat.zero_add] at hsecondGet
    have hmapGet : (if false then reference else reference.map comp_fun).get ⟨i, hil2⟩
        = comp_fun (reference.get ⟨i, hi⟩) := by
      show (reference.map comp_fun).get ⟨i, by simpa using hi⟩ = _
      rw [List.get_map]
    have hsGet : second.get? i = some
        { strand := Strand.comp
          idx := i
          newName := "Complement_" ++ toString i ++ "_" ++ comp_fun (reference.get ⟨i, hi⟩)
          srcName := comp_fun (reference.get ⟨i, hi⟩)
          rotation := ⟨Real.pi, tilt, base * (i : ℝ) + disp - Real.pi⟩
          location := ⟨radius * cos (base * (i : ℝ) + disp) + location.x,
                       radius * sin (base * (i : ℝ) + disp) + location.y,
                       2 * radius * sin tilt + (i : ℝ) * height + location.z⟩ } := by
      rw [hsecondGet]
      unfold helix_maker.compPlace
      rw [hmapGet, hcob]
      rfl
    have hLr : (first ++ second).get? i = first.get? i :=
      List.get?_append (by rw [hflen]; exact hi)
    have hLc : (first ++ second).get? (reference.length + i) = second.get? i := by
      rw [List.get?_append_right (by omega)]
      congr 1
      omega
    have hside := hrefSide (⟨Strand.ref, i, reference.get ⟨i, hi⟩,
      ⟨ob.rotation.x, -tilt, -Real.pi⟩, ⟨radius, 0, 0⟩⟩ : chang_techniques.Decor)
      rfl rfl rfl _ hfGet
    rcases hside with ⟨e1, e2, e3⟩
    refine ⟨first ++ second, _, _, D, hmk2, hskel, hmk, ?_, ?_⟩
    · refine ⟨_, _, _, hrg, hLr.trans hfGet, ?_, e1, e2, e3⟩
      rw [if_pos hs2]
      exact hrefGet
    · intro _
      refine ⟨_, _, _, hrg, hLc.trans hsGet, hcomGet, rfl, ?_, ?_⟩
      · rw [show (⟨Strand.comp, i, comp_fun (reference.get ⟨i, hi⟩),
          ⟨Real.pi, tilt, disp - Real.pi⟩,
          ⟨radius * cos disp, radius * sin disp,
           2 * radius * sin tilt⟩⟩ : chang_techniques.Decor).location
          = ⟨radius * cos disp, radius * sin disp, 2 * radius * sin tilt⟩ from rfl]
        rw [rungWorldPos_offset, hrz]
        apply Vec3.ext3
        · show radius * cos (base * (i : ℝ) + disp) + location.x = _
          ring
        · show radius * sin (base * (i : ℝ) + disp) + location.y = _
          ring
        · show 2 * radius * sin tilt + (i : ℝ) * height + location.z = _
          ring
      · intro v
        show euler _ v = rotZ _ (euler _ v)
        rw [hrz, euler_z_shift]
        congr 1
        apply Vec3.ext3
        · rfl
        · rfl
        · show base * (i : ℝ) + disp - Real.pi = base * (i : ℝ) + (disp - Real.pi)
          ring
  · rcases chang_techniques.decorLoop_one objects strand radius tilt disp hs2 reference
      complement 0 D hdec with ⟨_, hget⟩
    rcases hget i _ hnmGet with ⟨ob', hob', hrefGet⟩
    rw [Nat.zero_add] at hrefGet
    have hobEq : ob' = ob := by
      rw [hob] at hob'
      injection hob' with h
      exact h.symm
    rw [hobEq] at hrefGet
    have hside := hrefSide (⟨Strand.ref, i, reference.get ⟨i, hi⟩,
      ⟨ob.rotation.x, -tilt, -Real.pi⟩, ⟨radius, 0, 0⟩⟩ : chang_techniques.Decor)
      rfl rfl rfl _ hfGet
    rcases hside with ⟨e1, e2, e3⟩
    by_cases hst : strand < 2
    · refine ⟨first, _, _, D, hone hst, hskel, hmk, ?_, fun h => absurd h hs2⟩
      refine ⟨_, _, _, hrg, hfGet, ?_, e1, e2, e3⟩
      rw [if_neg hs2]
      exact hrefGet
    · rcases htwo hst with ⟨second, _, _, hmk2⟩
      have hLr : (first ++ second).get? i = first.get? i :=
        List.get?_append (by rw [hflen]; exact hi)
      refine ⟨first ++ second, _, _, D, hmk2, hskel, hmk, ?_, fun h => absurd h hs2⟩
      refine ⟨_, _, _, hrg, hLr.trans hfGet, ?_, e1, e2, e3⟩
      rw [if_neg hs2]
      exact hrefGet

/-- Witness for claim C2: both generations run on a one-entry reference with
identified parameters, and the placements agree. -/
theorem claim_C2_witness :
    ∃ L skel fin D,
      helix_maker.makeHelix [] "X" [⟨"A", ⟨0, 0, 0⟩⟩, ⟨"T", ⟨0, 0, 0⟩⟩] ["A"]
        helix_maker.complementDNA false 2 0 1 0 0 1 ⟨0, 0, 0⟩ = some L ∧
      chang_techniques.makeSkeleton [] "Y" (List.length ["A"]) 1 0 ⟨0, 0, 0⟩
        = some (skel, fin) ∧
      chang_techniques.makeHelix skel [⟨"A", ⟨0, 0, 0⟩⟩, ⟨"T", ⟨0, 0, 0⟩⟩] ["A"]
        (fun nm => some (helix_maker.complementDNA nm)) 2 1 0 0 = some D ∧
      (∃ r pr dr, skel.get? 0 = some r ∧ L.get? 0 = some pr ∧
        D.get? (if (2 : ℤ) = 2 then 2 * 0 else 0) = some dr ∧
        pr.srcName = dr.srcName ∧
        pr.location = chang_techniques.rungWorldPos r dr.location ∧
        (∀ v, euler pr.rotation v = chang_techniques.rungWorldRot r dr.rotation v)) ∧
      ((2 : ℤ) = 2 → ∃ r pc dc, skel.get? 0 = some r ∧
        L.get? (List.length ["A"] + 0) = some pc ∧ D.get? (2 * 0 + 1) = some dc ∧
        pc.srcName = dc.srcName ∧
        pc.location = chang_techniques.rungWorldPos r dc.location ∧
        (∀ v, euler pc.rotation v = chang_techniques.rungWorldRot r dc.rotation v)) :=
  claim_C2_generations_equivalent [] [] "X" "Y" [⟨"A", ⟨0, 0, 0⟩⟩, ⟨"T", ⟨0, 0, 0⟩⟩] ["A"]
    helix_maker.complementDNA 2 0 1 0 0 1 ⟨0, 0, 0⟩ 0
    (by decide) (by decide) (by decide) (by decide) (by decide)

namespace helix_maker

theorem refPlace_fields (objects : List BObj) (angle radius tilt height : ℝ) (loc : Vec3)
    (j : ℕ) (nm : String) (p : Placed)
    (h : refPlace objects angle radius tilt height loc j nm = some p) :
    p.idx = j ∧ p.strand = Strand.ref := by
  unfold refPlace at h
  cases hf : objects.find? (fun o => o.name = nm) with
  | none => rw [hf] at h; exact absurd h (by simp)
  | some ob =>
    rw [hf] at h
    simp only [Option.map_some', Option.some.injEq] at h
    subst h
    exact ⟨rfl, rfl⟩

theorem compPlace_fields (objects : List BObj) (angle radius tilt rotate height : ℝ)
    (loc : Vec3) (j : ℕ) (nm : String) (p : Placed)
    (h : compPlace objects angle radius tilt rotate height loc j nm = some p) :
    p.idx = j ∧ p.strand = Strand.comp := by
  unfold compPlace at h
  cases hf : objects.find? (fun o => o.name = nm) with
  | none => rw [hf] at h; exact absurd h (by simp)
  | some ob =>
    rw [hf] at h
    simp only [Option.map_some', Option.some.injEq] at h
    subst h
    exact ⟨rfl, rfl⟩

end helix_maker

namespace chang_techniques

theorem decorLoop_countP (objects : List BObj) (strand : ℤ) (radius tilt disp : ℝ)
    (pr : Decor → Bool) (k : ℕ) (cref ccomp : Bool)
    (h1 : ∀ (j : ℕ) (nm : String) (rot lv : Vec3),
      pr ⟨Strand.ref, j, nm, rot, lv⟩ = (decide (j = k) && cref))
    (h2 : ∀ (j : ℕ) (nm : String) (rot lv : Vec3),
      pr ⟨Strand.comp, j, nm, rot, lv⟩ = (decide (j = k) && ccomp)) :
    ∀ (refs comps : List String) (i : ℕ) (out : List Decor),
      decorLoop objects strand radius tilt disp i refs comps = some out →
      out.countP pr = if i ≤ k ∧ k < i + refs.length
        then (if strand = 2 then cref.toNat + ccomp.toNat else cref.toNat) else 0 := by
  intro refs
  induction refs with
  | nil =>
    intro comps i out h
    simp only [decorLoop, Option.some.injEq] at h
    subst h
    simp only [List.countP_nil, List.length_nil]
    rw [if_neg (by omega : ¬(i ≤ k ∧ k < i + 0))]
  | cons hd rest ih =>
    intro comps i out h
    cases comps with
    | nil => simp [decorLoop] at h
    | cons chd crest =>
      simp only [decorLoop] at h
      cases hf : objects.find? (fun o => o.name = hd) with
      | none => simp [hf] at h
      | some ob =>
        simp only [hf] at h
        by_cases hs : strand = 2
        · rw [if_pos hs] at h
          cases hcf : objects.find? (fun o => o.name = chd) with
          | none => simp [hcf] at h
          | some cob =>
            simp only [hcf] at h
            cases hr : decorLoop objects strand radius tilt disp (i + 1) rest crest with
            | none => simp [hr] at h
            | some ds =>
              simp only [hr, Option.some.injEq] at h
              subst h
              rw [List.countP_cons, List.countP_cons, ih crest (i + 1) ds hr,
                h1 i hd _ _, h2 i chd _ _]
              simp only [List.length_cons, if_pos hs]
              by_cases hik : i = k
              · subst hik
                rw [if_neg (by omega : ¬(i + 1 ≤ i ∧ i < i + 1 + rest.length))]
                rw [if_pos (by omega : i ≤ i ∧ i < i + (rest.length + 1))]
                simp only [decide_True, Bool.true_and]
                cases cref <;> cases ccomp <;> simp [Bool.toNat]
              · rw [decide_eq_false hik]
                simp only [Bool.false_and, Bool.false_eq_true, if_false, add_zero]
                have hiff : (i + 1 ≤ k ∧ k < i + 1 + rest.length) ↔
                    (i ≤ k ∧ k < i + (rest.length + 1)) := by omega
                rw [if_congr hiff rfl rfl]
        · rw [if_neg hs] at h
          cases hr : decorLoop objects strand radius tilt disp (i + 1) rest crest with
          | none => simp [hr] at h
          | some ds =>
            simp only [hr, Option.some.injEq] at h
            subst h
            rw [List.countP_cons, ih crest (i + 1) ds hr, h1 i hd _ _]
            simp only [List.length_cons, if_neg hs]
            by_cases hik : i = k
            · subst hik
              rw [if_neg (by omega : ¬(i + 1 ≤ i ∧ i < i + 1 + rest.length))]
              rw [if_pos (by omega : i ≤ i ∧ i < i + (rest.length + 1))]
              simp only [decide_True, Bool.true_and]
              cases cref <;> simp [Bool.toNat]
            · rw [decide_eq_false hik]
              simp only [Bool.false_and, Bool.false_eq_true, if_false, add_zero]
              have hiff : (i + 1 ≤ k ∧ k < i + 1 + rest.length) ↔
                  (i ≤ k ∧ k < i + (rest.length + 1)) := by omega
              rw [if_congr hiff rfl rfl]

end chang_techniques

/-- Claim C5: makeHelix produces exactly one placed residue per residue and
strand position: with strand 2 each rung i receives exactly one
reference-strand and one complement-strand residue for a total of 2n, and with
strand 1 each rung receives exactly the reference-strand residue for a total
of n, in both generations of the builder. -/
theorem claim_C5_one_residue_per_position :
    (∀ (collections : List String) (collect_name : String) (objects : List BObj)
       (reference : List String) (comp_fun : String → String) (comp : Bool) (strand : ℤ)
       (angle radius tilt rotate height : ℝ) (location : Vec3) (i : ℕ),
      collect_name ∉ collections →
      (∀ nm ∈ reference, nm ∈ objects.map BObj.name) →
      (∀ nm ∈ reference, comp_fun nm ∈ objects.map BObj.name) →
      ∃ L, helix_maker.makeHelix collections collect_name objects reference comp_fun comp
          strand angle radius tilt rotate height location = some L ∧
        (strand = 1 → L.length = reference.length ∧
          (i < reference.length →
            L.countP (fun p => decide (p.idx = i)) = 1 ∧
            L.countP (fun p => decide (p.idx = i ∧ p.strand = Strand.ref)) = 1 ∧
            L.countP (fun p => decide (p.idx = i ∧ p.strand = Strand.comp)) = 0)) ∧
        (strand = 2 → L.length = 2 * reference.length ∧
          (i < reference.length →
            L.countP (fun p => decide (p.idx = i)) = 2 ∧
            L.countP (fun p => decide (p.idx = i ∧ p.strand = Strand.ref)) = 1 ∧
            L.countP (fun p => decide (p.idx = i ∧ p.strand = Strand.comp)) = 1))) ∧
    (∀ (skeleton : List chang_techniques.Rung) (objects : List BObj)
       (reference : List String) (comp_fun : String → Option String) (strand : ℤ)
       (radius tilt disp : ℝ) (i : ℕ),
      reference.length ≤ skeleton.length →
      (∀ nm ∈ reference, nm ∈ objects.map BObj.name ∧
        ∃ cn, comp_fun nm = some cn ∧ cn ∈ objects.map BObj.name) →
      ∃ D, chang_techniques.makeHelix skeleton objects reference comp_fun strand radius
          tilt disp = some D ∧
        (strand = 1 → D.length = reference.length ∧
          (i < reference.length →
            D.countP (fun d => decide (d.rungIdx = i)) = 1 ∧
            D.countP (fun d => decide (d.rungIdx = i ∧ d.strand = Strand.ref)) = 1 ∧
            D.countP (fun d => decide (d.rungIdx = i ∧ d.strand = Strand.comp)) = 0)) ∧
        (strand = 2 → D.length = 2 * reference.length ∧
          (i < reference.length →
            D.countP (fun d => decide (d.rungIdx = i)) = 2 ∧
            D.countP (fun d => decide (d.rungIdx = i ∧ d.strand = Strand.ref)) = 1 ∧
            D.countP (fun d => decide (d.rungIdx = i ∧ d.strand = Strand.comp)) = 1))) := by
  constructor
  · intro collections collect_name objects reference comp_fun comp strand
      angle radius tilt rotate height location i h1 h2 h3
    rcases helix_maker.makeHelix_strands collections collect_name objects reference comp_fun
      comp strand angle radius tilt rotate height location h1 h2 h3 with
      ⟨first, hf, hflen, hone, htwo⟩
    have hseqlen : (if comp then reference.map comp_fun else reference).length
        = reference.length := by cases comp <;> simp
    have hcntIdxF := helix_maker.placeLoop_countP_one _
      (fun p => decide (p.idx = i)) i
      (fun j nm p hp => by
        have hj := (helix_maker.refPlace_fields _ _ _ _ _ _ _ _ _ hp).1
        simp [hj]) _ 0 first hf
    have hcntRefF := helix_maker.placeLoop_countP_one _
      (fun p => decide (p.idx = i ∧ p.strand = Strand.ref)) i
      (fun j nm p hp => by
        rcases helix_maker.refPlace_fields _ _ _ _ _ _ _ _ _ hp with ⟨hj, hstr⟩
        simp [hj, hstr]) _ 0 first hf
    have hcntComF := helix_maker.placeLoop_countP_zero _
      (fun p => decide (p.idx = i ∧ p.strand = Strand.comp))
      (fun j nm p hp => by
        rcases helix_maker.refPlace_fields _ _ _ _ _ _ _ _ _ hp with ⟨hj, hstr⟩
        simp [hj, hstr]) _ 0 first hf
    rw [hseqlen] at hcntIdxF hcntRefF
    by_cases hst : strand < 2
    · refine ⟨first, hone hst, ?_, ?_⟩
      · intro _
        refine ⟨hflen, fun hi => ?_⟩
        have hrange : (0 : ℕ) ≤ i ∧ i < 0 + reference.length := by omega
        rw [hcntIdxF, hcntRefF, hcntComF, if_pos hrange]
        exact ⟨rfl, rfl, rfl⟩
      · intro hs2
        exact absurd hst (by omega)
    · rcases htwo hst with ⟨second, hsnd, hslen, hmk⟩
      have hcseqlen : (if comp then reference else reference.map comp_fun).length
          = reference.length := by cases comp <;> simp
      have hcntIdxS := helix_maker.placeLoop_countP_one _
        (fun p => decide (p.idx = i)) i
        (fun j nm p hp => by
          have hj := (helix_maker.compPlace_fields _ _ _ _ _ _ _ _ _ _ hp).1
          simp [hj]) _ 0 second hsnd
      have hcntRefS := helix_maker.placeLoop_countP_zero _
        (fun p => decide (p.idx = i ∧ p.strand = Strand.ref))
        (fun j nm p hp => by
          rcases helix_maker.compPlace_fields _ _ _ _ _ _ _ _ _ _ hp with ⟨hj, hstr⟩
          simp [hj, hstr]) _ 0 second hsnd
      have hcntComS := helix_maker.placeLoop_countP_one _
        (fun p => decide (p.idx = i ∧ p.strand = Strand.comp)) i
        (fun j nm p hp => by
          rcases helix_maker.compPlace_fields _ _ _ _ _ _ _ _ _ _ hp with ⟨hj, hstr⟩
          simp [hj, hstr]) _ 0 second hsnd
      rw [hcseqlen] at hcntIdxS hcntComS
      refine ⟨first ++ second, hmk, ?_, ?_⟩
      · intro hs1
        exact absurd hst (by omega)
      · intro _
        refine ⟨by rw [List.length_append, hflen, hslen]; omega, fun hi => ?_⟩
        have hrange : (0 : ℕ) ≤ i ∧ i < 0 + reference.length := by omega
        rw [List.countP_append, List.countP_append, List.countP_append,
          hcntIdxF, hcntRefF, hcntComF, hcntIdxS, hcntRefS, hcntComS,
          if_pos hrange]
        exact ⟨rfl, rfl, rfl⟩
  · intro skeleton objects reference comp_fun strand radius tilt disp i hlen hval
    rcases chang_techniques.makeHelix_some skeleton objects reference comp_fun strand radius
      tilt disp hlen hval with ⟨complement, D, hc, hclen, hdec, hmk⟩
    have hcntIdx := chang_techniques.decorLoop_countP objects strand radius tilt disp
      (fun d => decide (d.rungIdx = i)) i true true
      (fun j nm rot lv => by simp) (fun j nm rot lv => by simp)
      reference complement 0 D hdec
    have hcntRef := chang_techniques.decorLoop_countP objects strand radius tilt disp
      (fun d => decide (d.rungIdx = i ∧ d.strand = Strand.ref)) i true false
      (fun j nm rot lv => by simp) (fun j nm rot lv => by simp)
      reference complement 0 D hdec
    have hcntCom := chang_techniques.decorLoop_countP objects strand radius tilt disp
      (fun d => decide (d.rungIdx = i ∧ d.strand = Strand.comp)) i false true
      (fun j nm rot lv => by simp) (fun j nm rot lv => by simp)
      reference complement 0 D hdec
    refine ⟨D, hmk, ?_, ?_⟩
    · intro hs1
      have hlen1 := (chang_techniques.decorLoop_one objects strand radius tilt disp
        (by omega) reference complement 0 D hdec).1
      refine ⟨hlen1, fun hi => ?_⟩
      have hrange : (0 : ℕ) ≤ i ∧ i < 0 + reference.length := by omega
      have hns : ¬ strand = 2 := by omega
      rw [hcntIdx, hcntRef, hcntCom, if_pos hrange, if_pos hrange, if_pos hrange,
        if_neg hns, if_neg hns, if_neg hns]
      exact ⟨rfl, rfl, rfl⟩
    · intro hs2
      have hlen2 := (chang_techniques.decorLoop_two objects strand radius tilt disp
        hs2 reference complement 0 D hdec).1
      refine ⟨hlen2, fun hi => ?_⟩
      have hrange : (0 : ℕ) ≤ i ∧ i < 0 + reference.length := by omega
      rw [hcntIdx, hcntRef, hcntCom, if_pos hrange, if_pos hrange, if_pos hrange,
        if_pos hs2, if_pos hs2, if_pos hs2]
      exact ⟨rfl, rfl, rfl⟩

/-- Witness for claim C5 on a one-entry reference with two strands. -/
theorem claim_C5_witness :
    (∃ L, helix_maker.makeHelix [] "X" [⟨"A", ⟨0, 0, 0⟩⟩, ⟨"T", ⟨0, 0, 0⟩⟩] ["A"]
        helix_maker.complementDNA false 2 0 1 0 0 1 ⟨0, 0, 0⟩ = some L ∧
      ((2 : ℤ) = 1 → L.length = List.length ["A"] ∧
        (0 < List.length ["A"] →
          L.countP (fun p => decide (p.idx = 0)) = 1 ∧
          L.countP (fun p => decide (p.idx = 0 ∧ p.strand = Strand.ref)) = 1 ∧
          L.countP (fun p => decide (p.idx = 0 ∧ p.strand = Strand.comp)) = 0)) ∧
      ((2 : ℤ) = 2 → L.length = 2 * List.length ["A"] ∧
        (0 < List.length ["A"] →
          L.countP (fun p => decide (p.idx = 0)) = 2 ∧
          L.countP (fun p => decide (p.idx = 0 ∧ p.strand = Strand.ref)) = 1 ∧
          L.countP (fun p => decide (p.idx = 0 ∧ p.strand = Strand.comp)) = 1))) ∧
    (∃ D, chang_techniques.makeHelix [⟨0, ⟨0, 0, 0⟩, 0⟩]
        [⟨"A1", ⟨0, 0, 0⟩⟩, ⟨"T1", ⟨0, 0, 0⟩⟩] ["A1"] chang_techniques.complementDNA 2 1 0 0
        = some D ∧
      ((2 : ℤ) = 1 → D.length = List.length ["A1"] ∧
        (0 < List.length ["A1"] →
          D.countP (fun d => decide (d.rungIdx = 0)) = 1 ∧
          D.countP (fun d => decide (d.rungIdx = 0 ∧ d.strand = Strand.ref)) = 1 ∧
          D.countP (fun d => decide (d.rungIdx = 0 ∧ d.strand = Strand.comp)) = 0)) ∧
      ((2 : ℤ) = 2 → D.length = 2 * List.length ["A1"] ∧
        (0 < List.length ["A1"] →
          D.countP (fun d => decide (d.rungIdx = 0)) = 2 ∧
          D.countP (fun d => decide (d.rungIdx = 0 ∧ d.strand = Strand.ref)) = 1 ∧
          D.countP (fun d => decide (d.rungIdx = 0 ∧ d.strand = Strand.comp)) = 1))) :=
  ⟨claim_C5_one_residue_per_position.1 [] "X" [⟨"A", ⟨0, 0, 0⟩⟩, ⟨"T", ⟨0, 0, 0⟩⟩] ["A"]
      helix_maker.complementDNA false 2 0 1 0 0 1 ⟨0, 0, 0⟩ 0
      (by decide) (by decide) (by decide),
   claim_C5_one_residue_per_position.2 [⟨0, ⟨0, 0, 0⟩, 0⟩]
      [⟨"A1", ⟨0, 0, 0⟩⟩, ⟨"T1", ⟨0, 0, 0⟩⟩] ["A1"] chang_techniques.complementDNA 2 1 0 0 0
      (by decide)
      (by
        intro nm hnm
        simp only [List.mem_singleton] at hnm
        subst hnm
        exact ⟨by decide, "T1", by decide, by decide⟩)⟩

/-! Lemmas about the scene store and copyRec. -/

mutual

theorem copyRec_eq : ∀ (t : OTree) (p : Option ℕ) (s : Scene),
    copyRec t p s = (⟨s.objs ++ copies t p s.nextObj s.nextData,
      s.links ++ (copies t p s.nextObj s.nextData).map (fun o => o.id),
      s.datas ++ treeDatas t s.nextData,
      s.nextObj + OTree.size t, s.nextData + OTree.dsize t⟩, s.nextObj)
  | OTree.node nm dat lc rt cs, p, s => by
    have hrec := fun (p' : Option ℕ) (s' : Scene) => copyForest_eq cs p' s'
    cases dat with
    | none =>
      simp [copyRec, hrec, copies, treeDatas, OTree.size, OTree.dsize,
        List.append_assoc, Nat.add_assoc]
    | some v =>
      simp [copyRec, hrec, copies, treeDatas, OTree.size, OTree.dsize,
        List.append_assoc, Nat.add_assoc]

theorem copyForest_eq : ∀ (ts : OForest) (p : Option ℕ) (s : Scene),
    copyForest ts p s = ⟨s.objs ++ copiesF ts p s.nextObj s.nextData,
      s.links ++ (copiesF ts p s.nextObj s.nextData).map (fun o => o.id),
      s.datas ++ forestDatas ts s.nextData,
      s.nextObj + OForest.size ts, s.nextData + OForest.dsize ts⟩
  | OForest.nil, p, s => by
    simp [copyForest, copiesF, forestDatas, OForest.size, OForest.dsize]
  | OForest.cons t ts, p, s => by
    have h1 := fun (p' : Option ℕ) (s' : Scene) => copyRec_eq t p' s'
    have h2 := fun (p' : Option ℕ) (s' : Scene) => copyForest_eq ts p' s'
    simp [copyForest, h1, h2, copiesF, forestDatas, OForest.size, OForest.dsize,
      List.append_assoc, Nat.add_assoc]

end

theorem OTree.size_pos : ∀ t : OTree, 0 < OTree.size t
  | OTree.node _ _ _ _ cs => by simp [OTree.size]

theorem find?_append_of_none {α : Type} (A B : List α) (pr : α → Bool)
    (h : ∀ a ∈ A, pr a = false) : (A ++ B).find? pr = B.find? pr := by
  induction A with
  | nil => rfl
  | cons a A ih =>
    have ha := h a (by simp)
    simp only [List.cons_append, List.find?]
    rw [ha]
    exact ih (fun x hx => h x (by simp [hx]))

mutual

theorem copies_id_bound : ∀ (t : OTree) (p : Option ℕ) (oid did : ℕ) (c : SObj),
    c ∈ copies t p oid did → oid ≤ c.id ∧ c.id < oid + OTree.size t
  | OTree.node nm dat lc rt cs, p, oid, did, c => by
    intro hc
    simp only [copies, List.mem_cons] at hc
    rcases hc with hc | hc
    · subst hc
      have := OTree.size_pos (OTree.node nm dat lc rt cs)
      refine ⟨le_refl _, ?_⟩
      show oid < oid + OTree.size (OTree.node nm dat lc rt cs)
      omega
    · have := copiesF_id_bound cs (some oid) (oid + 1) _ c hc
      simp only [OTree.size]
      omega

theorem copiesF_id_bound : ∀ (ts : OForest) (p : Option ℕ) (oid did : ℕ) (c : SObj),
    c ∈ copiesF ts p oid did → oid ≤ c.id ∧ c.id < oid + OForest.size ts
  | OForest.nil, p, oid, did, c => by
    intro hc
    simp [copiesF] at hc
  | OForest.cons t ts, p, oid, did, c => by
    intro hc
    simp only [copiesF, List.mem_append] at hc
    rcases hc with hc | hc
    · have := copies_id_bound t p oid did c hc
      simp only [OForest.size]
      omega
    · have := copiesF_id_bound ts p (oid + OTree.size t) _ c hc
      simp only [OForest.size]
      omega

end

mutual

theorem copies_parent : ∀ (t : OTree) (p : Option ℕ) (oid did : ℕ) (c : SObj),
    c ∈ copies t p oid did →
    c.parent = p ∨ ∃ q, c.parent = some q ∧ oid ≤ q ∧ q < oid + OTree.size t
  | OTree.node nm dat lc rt cs, p, oid, did, c => by
    intro hc
    simp only [copies, List.mem_cons] at hc
    rcases hc with hc | hc
    · subst hc
      exact Or.inl rfl
    · rcases copiesF_parent cs (some oid) (oid + 1) _ c hc with hp | ⟨q, hq, h1, h2⟩
      · refine Or.inr ⟨oid, hp, le_refl _, ?_⟩
        have := OTree.size_pos (OTree.node nm dat lc rt cs)
        omega
      · refine Or.inr ⟨q, hq, by omega, ?_⟩
        simp only [OTree.size]
        omega

theorem copiesF_parent : ∀ (ts : OForest) (p : Option ℕ) (oid did : ℕ) (c : SObj),
    c ∈ copiesF ts p oid did →
    c.parent = p ∨ ∃ q, c.parent = some q ∧ oid ≤ q ∧ q < oid + OForest.size ts
  | OForest.nil, p, oid, did, c => by
    intro hc
    simp [copiesF] at hc
  | OForest.cons t ts, p, oid, did, c => by
    intro hc
    simp only [copiesF, List.mem_append] at hc
    rcases hc with hc | hc
    · rcases copies_parent t p oid did c hc with hp | ⟨q, hq, h1, h2⟩
      · exact Or.inl hp
      · refine Or.inr ⟨q, hq, h1, ?_⟩
        simp only [OForest.size]
        omega
    · rcases copiesF_parent ts p (oid + OTree.size t) _ c hc with hp | ⟨q, hq, h1, h2⟩
      · exact Or.inl hp
      · refine Or.inr ⟨q, hq, by omega, ?_⟩
        simp only [OForest.size]
        omega

end

mutual

theorem treeDatas_key_bound : ∀ (t : OTree) (did : ℕ) (e : ℕ × ℕ),
    e ∈ treeDatas t did → did ≤ e.1 ∧ e.1 < did + OTree.dsize t
  | OTree.node nm dat lc rt cs, did, e => by
    intro he
    cases dat with
    | none =>
      simp only [treeDatas, List.nil_append] at he
      have := forestDatas_key_bound cs did e (by simpa using he)
      simp only [OTree.dsize]
      omega
    | some v =>
      simp only [treeDatas, List.singleton_append, List.mem_cons] at he
      rcases he with he | he
      · subst he
        simp only [OTree.dsize]
        omega
      · have := forestDatas_key_bound cs (did + 1) e he
        simp only [OTree.dsize]
        omega

theorem forestDatas_key_bound : ∀ (ts : OForest) (did : ℕ) (e : ℕ × ℕ),
    e ∈ forestDatas ts did → did ≤ e.1 ∧ e.1 < did + OForest.dsize ts
  | OForest.nil, did, e => by
    intro he
    simp [forestDatas] at he
  | OForest.cons t ts, did, e => by
    intro he
    simp only [forestDatas, List.mem_append] at he
    rcases he with he | he
    · have := treeDatas_key_bound t did e he
      simp only [OForest.dsize]
      omega
    · have := forestDatas_key_bound ts (did + OTree.dsize t) e he
      simp only [OForest.dsize]
      omega

end

mutual

theorem copies_filter_parent : ∀ (t : OTree) (p : Option ℕ) (oid did q : ℕ), q < oid →
    (copies t p oid did).filter (fun o => o.parent = some q)
      = if p = some q then [rootRec t p oid did] else []
  | OTree.node nm dat lc rt cs, p, oid, did, q => by
    intro hq
    simp only [copies, List.filter_cons]
    rw [copiesF_filter_parent cs (some oid) (oid + 1) _ q (by omega)]
    rw [if_neg (by simp; omega : ¬(some oid = some q))]
    by_cases hp : p = some q
    · rw [if_pos (by simp [hp]), if_pos hp]
      rfl
    · rw [if_neg (by simp [hp]), if_neg hp]

theorem copiesF_filter_parent : ∀ (ts : OForest) (p : Option ℕ) (oid did q : ℕ), q < oid →
    (copiesF ts p oid did).filter (fun o => o.parent = some q)
      = if p = some q then rootsF ts p oid did else []
  | OForest.nil, p, oid, did, q => by
    intro hq
    simp only [copiesF, List.filter_nil, rootsF]
    split_ifs <;> rfl
  | OForest.cons t ts, p, oid, did, q => by
    intro hq
    simp only [copiesF, List.filter_append]
    rw [copies_filter_parent t p oid did q hq,
      copiesF_filter_parent ts p (oid + OTree.size t) _ q (by omega)]
    by_cases hp : p = some q
    · rw [if_pos hp, if_pos hp, if_pos hp]
      rfl
    · rw [if_neg hp, if_neg hp, if_neg hp]
      rfl

end

theorem rootRec_id : ∀ (t : OTree) (p : Option ℕ) (oid did : ℕ), (rootRec t p oid did).id = oid
  | OTree.node _ _ _ _ _, _, _, _ => rfl

theorem findObj_copies (t : OTree) (p : Option ℕ) (oid did : ℕ)
    (A B : List SObj) (links : List ℕ) (datas : List (ℕ × ℕ)) (no nd : ℕ)
    (hA : ∀ o ∈ A, o.id ≠ oid) :
    findObj ⟨A ++ copies t p oid did ++ B, links, datas, no, nd⟩ oid
      = some (rootRec t p oid did) := by
  cases t with
  | node nm dat lc rt cs =>
    show ((A ++ copies (OTree.node nm dat lc rt cs) p oid did) ++ B).find?
        (fun o => o.id = oid) = some (rootRec (OTree.node nm dat lc rt cs) p oid did)
    have hskip := find?_append_of_none A
      (copies (OTree.node nm dat lc rt cs) p oid did ++ B)
      (fun o => o.id = oid) (by intro a ha; simp [hA a ha])
    rw [List.append_assoc, hskip]
    simp only [copies, List.cons_append]
    rw [List.find?_cons_of_pos _ (by simp)]
    rfl

theorem childrenOf_copies (nm : String) (dat : Option ℕ) (lc rt : Vec3) (cs : OForest)
    (p : Option ℕ) (oid did : ℕ) (A B : List SObj) (links : List ℕ)
    (datas : List (ℕ × ℕ)) (no nd : ℕ)
    (hpA : ∀ o ∈ A, o.parent ≠ some oid) (hpB : ∀ o ∈ B, o.parent ≠ some oid)
    (hp : p ≠ some oid) :
    childrenOf ⟨A ++ copies (OTree.node nm dat lc rt cs) p oid did ++ B, links, datas, no, nd⟩
        oid
      = rootsF cs (some oid) (oid + 1)
          (did + match dat with | none => 0 | some _ => 1) := by
  show ((A ++ copies (OTree.node nm dat lc rt cs) p oid did) ++ B).filter
      (fun o => o.parent = some oid) = _
  rw [List.filter_append, List.filter_append]
  have hfA : A.filter (fun o => o.parent = some oid) = [] := by
    rw [List.filter_eq_nil]
    intro a ha
    simp [hpA a ha]
  have hfB : B.filter (fun o => o.parent = some oid) = [] := by
    rw [List.filter_eq_nil]
    intro a ha
    simp [hpB a ha]
  rw [hfA, hfB]
  simp only [copies, List.filter_cons]
  rw [if_neg (by simp [hp]),
    copiesF_filter_parent cs (some oid) (oid + 1) _ oid (by omega), if_pos rfl]
  simp

theorem dataLookup_copies (v did : ℕ) (dA dB rest : List (ℕ × ℕ))
    (objs : List SObj) (links : List ℕ) (no nd : ℕ)
    (hdA : ∀ e ∈ dA, e.1 ≠ did) :
    dataLookup ⟨objs, links, dA ++ ((did, v) :: rest) ++ dB, no, nd⟩ did = some v := by
  show (((dA ++ ((did, v) :: rest)) ++ dB).find? (fun q => q.1 = did)).map (fun q => q.2)
      = some v
  have hskip := find?_append_of_none dA (((did, v) :: rest) ++ dB)
    (fun q => q.1 = did) (by intro e he; simp [hdA e he])
  rw [List.append_assoc, hskip, List.cons_append,
    List.find?_cons_of_pos _ (by simp)]
  rfl

theorem rootRec_parent : ∀ (t : OTree) (p : Option ℕ) (oid did : ℕ),
    (rootRec t p oid did).parent = p
  | OTree.node _ _ _ _ _, _, _, _ => rfl

mutual

theorem subtreeF_copies : ∀ (t : OTree) (p : Option ℕ) (oid did fuel : ℕ)
    (A B : List SObj) (dA dB : List (ℕ × ℕ)) (links : List ℕ) (no nd : ℕ),
    (∀ o ∈ A, o.id < oid ∨ oid + OTree.size t ≤ o.id) →
    (∀ o ∈ B, o.id < oid ∨ oid + OTree.size t ≤ o.id) →
    (∀ o ∈ A, ∀ q, o.parent = some q → q < oid ∨ oid + OTree.size t ≤ q) →
    (∀ o ∈ B, ∀ q, o.parent = some q → q < oid ∨ oid + OTree.size t ≤ q) →
    (∀ e ∈ dA, e.1 < did ∨ did + OTree.dsize t ≤ e.1) →
    (∀ e ∈ dB, e.1 < did ∨ did + OTree.dsize t ≤ e.1) →
    (∀ q, p = some q → q < oid) →
    OTree.size t ≤ fuel →
    subtreeF ⟨A ++ copies t p oid did ++ B, links, dA ++ treeDatas t did ++ dB, no, nd⟩
      fuel oid = some t
  | OTree.node nm dat lc rt cs, p, oid, did, fuel, A, B, dA, dB, links, no, nd => by
    intro hA hB hpA hpB hdA hdB hp hfuel
    cases dat with
    | none =>
      have hsz : OTree.size (OTree.node nm none lc rt cs) = 1 + OForest.size cs := by
        simp [OTree.size]
      have hds : OTree.dsize (OTree.node nm none lc rt cs) = OForest.dsize cs := by
        simp [OTree.dsize]
      cases fuel with
      | zero => omega
      | succ f =>
        have hfind := findObj_copies (OTree.node nm none lc rt cs) p oid did A B links
          (dA ++ treeDatas (OTree.node nm none lc rt cs) did ++ dB) no nd
          (by intro o ho; have := hA o ho; omega)
        have hchild : childrenOf ⟨A ++ copies (OTree.node nm none lc rt cs) p oid did ++ B,
            links, dA ++ treeDatas (OTree.node nm none lc rt cs) did ++ dB, no, nd⟩ oid
            = rootsF cs (some oid) (oid + 1) did := by
          rw [childrenOf_copies nm none lc rt cs p oid did A B links
            (dA ++ treeDatas (OTree.node nm none lc rt cs) did ++ dB) no nd
            (by intro o ho hcon; have := hpA o ho oid hcon; omega)
            (by intro o ho hcon; have := hpB o ho oid hcon; omega)
            (by intro hcon; have := hp oid hcon; omega)]
          rfl
        have hforest := subtreeForest_copies cs (some oid) (oid + 1) did f
          (A ++ [rootRec (OTree.node nm none lc rt cs) p oid did]) B dA dB links no nd
          (by intro o ho
              rcases List.mem_append.mp ho with ho | ho
              · have := hA o ho; omega
              · have hoe : o = rootRec (OTree.node nm none lc rt cs) p oid did := by
                  simpa using ho
                subst hoe
                have hid := rootRec_id (OTree.node nm none lc rt cs) p oid did
                omega)
          (by intro o ho; have := hB o ho; omega)
          (by intro o ho q hq
              rcases List.mem_append.mp ho with ho | ho
              · have := hpA o ho q hq; omega
              · have hoe : o = rootRec (OTree.node nm none lc rt cs) p oid did := by
                  simpa using ho
                subst hoe
                rw [rootRec_parent] at hq
                have := hp q hq
                omega)
          (by intro o ho q hq; have := hpB o ho q hq; omega)
          (by intro e he; have := hdA e he; omega)
          (by intro e he; have := hdB e he; omega)
          (by intro q hq; injection hq with h; omega)
          (by omega)
        have hSe : (⟨(A ++ [rootRec (OTree.node nm none lc rt cs) p oid did])
              ++ copiesF cs (some oid) (oid + 1) did ++ B, links,
            dA ++ forestDatas cs did ++ dB, no, nd⟩ : Scene)
            = ⟨A ++ copies (OTree.node nm none lc rt cs) p oid did ++ B, links,
                dA ++ treeDatas (OTree.node nm none lc rt cs) did ++ dB, no, nd⟩ := by
          simp [rootRec, copies, treeDatas, List.append_assoc]
        rw [hSe] at hforest
        simp only [subtreeF, hfind, hchild, hforest, rootRec, Option.map_none']
    | some v =>
      have hsz : OTree.size (OTree.node nm (some v) lc rt cs) = 1 + OForest.size cs := by
        simp [OTree.size]
      have hds : OTree.dsize (OTree.node nm (some v) lc rt cs) = 1 + OForest.dsize cs := by
        simp [OTree.dsize]
      cases fuel with
      | zero => omega
      | succ f =>
        have hfind := findObj_copies (OTree.node nm (some v) lc rt cs) p oid did A B links
          (dA ++ treeDatas (OTree.node nm (some v) lc rt cs) did ++ dB) no nd
          (by intro o ho; have := hA o ho; omega)
        have hchild : childrenOf
            ⟨A ++ copies (OTree.node nm (some v) lc rt cs) p oid did ++ B,
              links, dA ++ treeDatas (OTree.node nm (some v) lc rt cs) did ++ dB, no, nd⟩ oid
            = rootsF cs (some oid) (oid + 1) (did + 1) := by
          rw [childrenOf_copies nm (some v) lc rt cs p oid did A B links
            (dA ++ treeDatas (OTree.node nm (some v) lc rt cs) did ++ dB) no nd
            (by intro o ho hcon; have := hpA o ho oid hcon; omega)
            (by intro o ho hcon; have := hpB o ho oid hcon; omega)
            (by intro hcon; have := hp oid hcon; omega)]
        have hforest := subtreeForest_copies cs (some oid) (oid + 1) (did + 1) f
          (A ++ [rootRec (OTree.node nm (some v) lc rt cs) p oid did]) B
          (dA ++ [(did, v)]) dB links no nd
          (by intro o ho
              rcases List.mem_append.mp ho with ho | ho
              · have := hA o ho; omega
              · have hoe : o = rootRec (OTree.node nm (some v) lc rt cs) p oid did := by
                  simpa using ho
                subst hoe
                have hid := rootRec_id (OTree.node nm (some v) lc rt cs) p oid did
                omega)
          (by intro o ho; have := hB o ho; omega)
          (by intro o ho q hq
              rcases List.mem_append.mp ho with ho | ho
              · have := hpA o ho q hq; omega
              · have hoe : o = rootRec (OTree.node nm (some v) lc rt cs) p oid did := by
                  simpa using ho
                subst hoe
                rw [rootRec_parent] at hq
                have := hp q hq
                omega)
          (by intro o ho q hq; have := hpB o ho q hq; omega)
          (by intro e he
              rcases List.mem_append.mp he with he | he
              · have := hdA e he; omega
              · have hee : e = (did, v) := by simpa using he
                subst hee
                left
                show did < did + 1
                omega)
          (by intro e he; have := hdB e he; omega)
          (by intro q hq; injection hq with h; omega)
          (by omega)
        have hSe : (⟨(A ++ [rootRec (OTree.node nm (some v) lc rt cs) p oid did])
              ++ copiesF cs (some oid) (oid + 1) (did + 1) ++ B, links,
            (dA ++ [(did, v)]) ++ forestDatas cs (did + 1) ++ dB, no, nd⟩ : Scene)
            = ⟨A ++ copies (OTree.node nm (some v) lc rt cs) p oid did ++ B, links,
                dA ++ treeDatas (OTree.node nm (some v) lc rt cs) did ++ dB, no, nd⟩ := by
          simp [rootRec, copies, treeDatas, List.append_assoc]
        rw [hSe] at hforest
        have htd : treeDatas (OTree.node nm (some v) lc rt cs) did
            = (did, v) :: forestDatas cs (did + 1) := by
          simp [treeDatas]
        rw [htd] at hfind hchild hforest ⊢
        have hlook := dataLookup_copies v did dA dB (forestDatas cs (did + 1))
          (A ++ copies (OTree.node nm (some v) lc rt cs) p oid did ++ B) links no nd
          (by intro e he; have := hdA e he; omega)
        simp only [subtreeF, hfind, hchild, hforest, hlook, rootRec, Option.map_some']

theorem subtreeForest_copies : ∀ (ts : OForest) (p : Option ℕ) (oid did fuel : ℕ)
    (A B : List SObj) (dA dB : List (ℕ × ℕ)) (links : List ℕ) (no nd : ℕ),
    (∀ o ∈ A, o.id < oid ∨ oid + OForest.size ts ≤ o.id) →
    (∀ o ∈ B, o.id < oid ∨ oid + OForest.size ts ≤ o.id) →
    (∀ o ∈ A, ∀ q, o.parent = some q → q < oid ∨ oid + OForest.size ts ≤ q) →
    (∀ o ∈ B, ∀ q, o.parent = some q → q < oid ∨ oid + OForest.size ts ≤ q) →
    (∀ e ∈ dA, e.1 < did ∨ did + OForest.dsize ts ≤ e.1) →
    (∀ e ∈ dB, e.1 < did ∨ did + OForest.dsize ts ≤ e.1) →
    (∀ q, p = some q → q < oid) →
    OForest.size ts ≤ fuel →
    allSomeForest ((rootsF ts p oid did).map
      (fun c => subtreeF ⟨A ++ copiesF ts p oid did ++ B, links,
        dA ++ forestDatas ts did ++ dB, no, nd⟩ fuel c.id)) = some ts
  | OForest.nil, p, oid, did, fuel, A, B, dA, dB, links, no, nd => by
    intro hA hB hpA hpB hdA hdB hp hfuel
    simp [rootsF, allSomeForest]
  | OForest.cons t ts, p, oid, did, fuel, A, B, dA, dB, links, no, nd => by
    intro hA hB hpA hpB hdA hdB hp hfuel
    have hszc : OForest.size (OForest.cons t ts) = OTree.size t + OForest.size ts := by
      simp [OForest.size]
    have hdsc : OForest.dsize (OForest.cons t ts) = OTree.dsize t + OForest.dsize ts := by
      simp [OForest.dsize]
    have hhead := subtreeF_copies t p oid did fuel A
      (copiesF ts p (oid + OTree.size t) (did + OTree.dsize t) ++ B)
      dA (forestDatas ts (did + OTree.dsize t) ++ dB) links no nd
      (by intro o ho; have := hA o ho; omega)
      (by intro o ho
          rcases List.mem_append.mp ho with ho | ho
          · have := copiesF_id_bound ts p (oid + OTree.size t) (did + OTree.dsize t) o ho
            omega
          · have := hB o ho; omega)
      (by intro o ho q hq; have := hpA o ho q hq; omega)
      (by intro o ho q hq
          rcases List.mem_append.mp ho with ho | ho
          · rcases copiesF_parent ts p (oid + OTree.size t) (did + OTree.dsize t) o ho with
              hpar | ⟨q2, hq2, hb1, hb2⟩
            · rw [hpar] at hq; have := hp q hq; omega
            · rw [hq2] at hq; injection hq with h; omega
          · have := hpB o ho q hq; omega)
      (by intro e he; have := hdA e he; omega)
      (by intro e he
          rcases List.mem_append.mp he with he | he
          · have := forestDatas_key_bound ts (did + OTree.dsize t) e he; omega
          · have := hdB e he; omega)
      hp (by have := OForest.size ts; omega)
    have hSe1 : (⟨A ++ copies t p oid did
          ++ (copiesF ts p (oid + OTree.size t) (did + OTree.dsize t) ++ B), links,
        dA ++ treeDatas t did ++ (forestDatas ts (did + OTree.dsize t) ++ dB),
        no, nd⟩ : Scene)
        = ⟨A ++ copiesF (OForest.cons t ts) p oid did ++ B, links,
            dA ++ forestDatas (OForest.cons t ts) did ++ dB, no, nd⟩ := by
      simp [copiesF, forestDatas, List.append_assoc]
    rw [hSe1] at hhead
    have htail := subtreeForest_copies ts p (oid + OTree.size t) (did + OTree.dsize t) fuel
      (A ++ copies t p oid did) B (dA ++ treeDatas t did) dB links no nd
      (by intro o ho
          rcases List.mem_append.mp ho with ho | ho
          · have := hA o ho; omega
          · have := copies_id_bound t p oid did o ho; omega)
      (by intro o ho; have := hB o ho; omega)
      (by intro o ho q hq
          rcases List.mem_append.mp ho with ho | ho
          · have := hpA o ho q hq; omega
          · rcases copies_parent t p oid did o ho with hpar | ⟨q2, hq2, hb1, hb2⟩
            · rw [hpar] at hq; have := hp q hq; omega
            · rw [hq2] at hq; injection hq with h; omega)
      (by intro o ho q hq; have := hpB o ho q hq; omega)
      (by intro e he
          rcases List.mem_append.mp he with he | he
          · have := hdA e he; omega
          · have := treeDatas_key_bound t did e he; omega)
      (by intro e he; have := hdB e he; omega)
      (by intro q hq; have := hp q hq; omega)
      (by omega)
    have hSe2 : (⟨(A ++ copies t p oid did)
          ++ copiesF ts p (oid + OTree.size t) (did + OTree.dsize t) ++ B, links,
        (dA ++ treeDatas t did) ++ forestDatas ts (did + OTree.dsize t) ++ dB,
        no, nd⟩ : Scene)
        = ⟨A ++ copiesF (OForest.cons t ts) p oid did ++ B, links,
            dA ++ forestDatas (OForest.cons t ts) did ++ dB, no, nd⟩ := by
      simp [copiesF, forestDatas, List.append_assoc]
    rw [hSe2] at htail
    simp only [rootsF, List.map_cons, rootRec_id, hhead, allSomeForest, htail,
      Option.map_some']

end

/-- C7: copyRec(obj, parent, collection) of chang_techniques.py performs a
recursive copy: it allocates exactly the fresh records copies t p oid did (one
fresh copy per descendant of the snapshot t, with parent links mirroring the
original hierarchy), links every copy into the collection, gives every copy of
an object with data its own fresh data copy (all new data keys are at or above
the old allocator), parents the returned root to the given parent, and the
descendant tree of the new root, read back from the scene by parent links,
is exactly the snapshot t. -/
theorem claim_C7_copyRec_recursive_copy (t : OTree) (p : Option ℕ) (s : Scene)
    (hwf : SceneWF s) (hp : ∀ q, p = some q → q < s.nextObj) :
    (copyRec t p s).2 = s.nextObj ∧
    (copyRec t p s).1.objs = s.objs ++ copies t p s.nextObj s.nextData ∧
    (copyRec t p s).1.links
      = s.links ++ (copies t p s.nextObj s.nextData).map (fun o => o.id) ∧
    (copyRec t p s).1.datas = s.datas ++ treeDatas t s.nextData ∧
    findObj (copyRec t p s).1 (copyRec t p s).2
      = some (rootRec t p s.nextObj s.nextData) ∧
    (rootRec t p s.nextObj s.nextData).parent = p ∧
    subtreeF (copyRec t p s).1 (OTree.size t) (copyRec t p s).2 = some t ∧
    (∀ e ∈ treeDatas t s.nextData, s.nextData ≤ e.1) := by
  have heq := copyRec_eq t p s
  have hA : ∀ o ∈ s.objs, o.id < s.nextObj ∨ s.nextObj + OTree.size t ≤ o.id := by
    intro o ho
    exact Or.inl (hwf.1 o ho).1
  have hpA : ∀ o ∈ s.objs, ∀ q, o.parent = some q →
      q < s.nextObj ∨ s.nextObj + OTree.size t ≤ q := by
    intro o ho q hq
    have := (hwf.1 o ho).2.1
    rw [hq] at this
    simp only [Option.all_some, decide_eq_true_eq] at this
    exact Or.inl this
  have hdA : ∀ e ∈ s.datas, e.1 < s.nextData ∨ s.nextData + OTree.dsize t ≤ e.1 := by
    intro e he
    exact Or.inl (hwf.2.1 e he)
  refine ⟨by rw [heq], by rw [heq], by rw [heq], by rw [heq], ?_,
    rootRec_parent t p s.nextObj s.nextData, ?_, ?_⟩
  · have hfo := findObj_copies t p s.nextObj s.nextData s.objs []
      (s.links ++ (copies t p s.nextObj s.nextData).map (fun o => o.id))
      (s.datas ++ treeDatas t s.nextData)
      (s.nextObj + OTree.size t) (s.nextData + OTree.dsize t)
      (by intro o ho
          have := (hwf.1 o ho).1
          omega)
    have hsc : (⟨s.objs ++ copies t p s.nextObj s.nextData ++ [],
        s.links ++ (copies t p s.nextObj s.nextData).map (fun o => o.id),
        s.datas ++ treeDatas t s.nextData,
        s.nextObj + OTree.size t, s.nextData + OTree.dsize t⟩ : Scene)
        = ⟨s.objs ++ copies t p s.nextObj s.nextData,
            s.links ++ (copies t p s.nextObj s.nextData).map (fun o => o.id),
            s.datas ++ treeDatas t s.nextData,
            s.nextObj + OTree.size t, s.nextData + OTree.dsize t⟩ := by
      simp
    rw [hsc] at hfo
    rw [heq]
    exact hfo
  · have hst := subtreeF_copies t p s.nextObj s.nextData (OTree.size t) s.objs []
      s.datas []
      (s.links ++ (copies t p s.nextObj s.nextData).map (fun o => o.id))
      (s.nextObj + OTree.size t) (s.nextData + OTree.dsize t)
      hA (by intro o ho; simp at ho) hpA (by intro o ho; simp at ho)
      hdA (by intro e he; simp at he) hp (le_refl _)
    have hsc : (⟨s.objs ++ copies t p s.nextObj s.nextData ++ [],
        s.links ++ (copies t p s.nextObj s.nextData).map (fun o => o.id),
        s.datas ++ treeDatas t s.nextData ++ [],
        s.nextObj + OTree.size t, s.nextData + OTree.dsize t⟩ : Scene)
        = ⟨s.objs ++ copies t p s.nextObj s.nextData,
            s.links ++ (copies t p s.nextObj s.nextData).map (fun o => o.id),
            s.datas ++ treeDatas t s.nextData,
            s.nextObj + OTree.size t, s.nextData + OTree.dsize t⟩ := by
      simp
    rw [hsc] at hst
    rw [heq]
    exact hst
  · intro e he
    exact (treeDatas_key_bound t s.nextData e he).1

/-- Witness for C7 at a concrete scene and snapshot. -/
theorem claim_C7_witness :
    SceneWF (⟨[⟨0, "Cube", some 0, none, ⟨0, 0, 0⟩, ⟨0, 0, 0⟩⟩], [0], [(0, 7)], 1, 1⟩ : Scene)
    ∧ (∀ q, (some 0 : Option ℕ) = some q →
        q < (⟨[⟨0, "Cube", some 0, none, ⟨0, 0, 0⟩, ⟨0, 0, 0⟩⟩], [0], [(0, 7)], 1, 1⟩
          : Scene).nextObj)
    ∧ ((copyRec (OTree.node "M" (some 5) ⟨0, 0, 0⟩ ⟨0, 0, 0⟩
          (OForest.cons (OTree.node "A" none ⟨0, 0, 0⟩ ⟨0, 0, 0⟩ OForest.nil) OForest.nil))
        (some 0)
        ⟨[⟨0, "Cube", some 0, none, ⟨0, 0, 0⟩, ⟨0, 0, 0⟩⟩], [0], [(0, 7)], 1, 1⟩).2 = 1
    ∧ (copyRec (OTree.node "M" (some 5) ⟨0, 0, 0⟩ ⟨0, 0, 0⟩
          (OForest.cons (OTree.node "A" none ⟨0, 0, 0⟩ ⟨0, 0, 0⟩ OForest.nil) OForest.nil))
        (some 0)
        ⟨[⟨0, "Cube", some 0, none, ⟨0, 0, 0⟩, ⟨0, 0, 0⟩⟩], [0], [(0, 7)], 1, 1⟩).1.objs
      = [⟨0, "Cube", some 0, none, ⟨0, 0, 0⟩, ⟨0, 0, 0⟩⟩]
        ++ copies (OTree.node "M" (some 5) ⟨0, 0, 0⟩ ⟨0, 0, 0⟩
          (OForest.cons (OTree.node "A" none ⟨0, 0, 0⟩ ⟨0, 0, 0⟩ OForest.nil) OForest.nil))
          (some 0) 1 1
    ∧ (copyRec (OTree.node "M" (some 5) ⟨0, 0, 0⟩ ⟨0, 0, 0⟩
          (OForest.cons (OTree.node "A" none ⟨0, 0, 0⟩ ⟨0, 0, 0⟩ OForest.nil) OForest.nil))
        (some 0)
        ⟨[⟨0, "Cube", some 0, none, ⟨0, 0, 0⟩, ⟨0, 0, 0⟩⟩], [0], [(0, 7)], 1, 1⟩).1.links
      = [0] ++ (copies (OTree.node "M" (some 5) ⟨0, 0, 0⟩ ⟨0, 0, 0⟩
          (OForest.cons (OTree.node "A" none ⟨0, 0, 0⟩ ⟨0, 0, 0⟩ OForest.nil) OForest.nil))
          (some 0) 1 1).map (fun o => o.id)
    ∧ (copyRec (OTree.node "M" (some 5) ⟨0, 0, 0⟩ ⟨0, 0, 0⟩
          (OForest.cons (OTree.node "A" none ⟨0, 0, 0⟩ ⟨0, 0, 0⟩ OForest.nil) OForest.nil))
        (some 0)
        ⟨[⟨0, "Cube", some 0, none, ⟨0, 0, 0⟩, ⟨0, 0, 0⟩⟩], [0], [(0, 7)], 1, 1⟩).1.datas
      = [(0, 7)] ++ treeDatas (OTree.node "M" (some 5) ⟨0, 0, 0⟩ ⟨0, 0, 0⟩
          (OForest.cons (OTree.node "A" none ⟨0, 0, 0⟩ ⟨0, 0, 0⟩ OForest.nil) OForest.nil)) 1
    ∧ findObj (copyRec (OTree.node "M" (some 5) ⟨0, 0, 0⟩ ⟨0, 0, 0⟩
          (OForest.cons (OTree.node "A" none ⟨0, 0, 0⟩ ⟨0, 0, 0⟩ OForest.nil) OForest.nil))
        (some 0)
        ⟨[⟨0, "Cube", some 0, none, ⟨0, 0, 0⟩, ⟨0, 0, 0⟩⟩], [0], [(0, 7)], 1, 1⟩).1
        (copyRec (OTree.node "M" (some 5) ⟨0, 0, 0⟩ ⟨0, 0, 0⟩
          (OForest.cons (OTree.node "A" none ⟨0, 0, 0⟩ ⟨0, 0, 0⟩ OForest.nil) OForest.nil))
        (some 0)
        ⟨[⟨0, "Cube", some 0, none, ⟨0, 0, 0⟩, ⟨0, 0, 0⟩⟩], [0], [(0, 7)], 1, 1⟩).2
      = some (rootRec (OTree.node "M" (some 5) ⟨0, 0, 0⟩ ⟨0, 0, 0⟩
          (OForest.cons (OTree.node "A" none ⟨0, 0, 0⟩ ⟨0, 0, 0⟩ OForest.nil) OForest.nil))
          (some 0) 1 1)
    ∧ (rootRec (OTree.node "M" (some 5) ⟨0, 0, 0⟩ ⟨0, 0, 0⟩
          (OForest.cons (OTree.node "A" none ⟨0, 0, 0⟩ ⟨0, 0, 0⟩ OForest.nil) OForest.nil))
          (some 0) 1 1).parent = some 0
    ∧ subtreeF (copyRec (OTree.node "M" (some 5) ⟨0, 0, 0⟩ ⟨0, 0, 0⟩
          (OForest.cons (OTree.node "A" none ⟨0, 0, 0⟩ ⟨0, 0, 0⟩ OForest.nil) OForest.nil))
        (some 0)
        ⟨[⟨0, "Cube", some 0, none, ⟨0, 0, 0⟩, ⟨0, 0, 0⟩⟩], [0], [(0, 7)], 1, 1⟩).1
        (OTree.size (OTree.node "M" (some 5) ⟨0, 0, 0⟩ ⟨0, 0, 0⟩
          (OForest.cons (OTree.node "A" none ⟨0, 0, 0⟩ ⟨0, 0, 0⟩ OForest.nil) OForest.nil)))
        (copyRec (OTree.node "M" (some 5) ⟨0, 0, 0⟩ ⟨0, 0, 0⟩
          (OForest.cons (OTree.node "A" none ⟨0, 0, 0⟩ ⟨0, 0, 0⟩ OForest.nil) OForest.nil))
        (some 0)
        ⟨[⟨0, "Cube", some 0, none, ⟨0, 0, 0⟩, ⟨0, 0, 0⟩⟩], [0], [(0, 7)], 1, 1⟩).2
      = some (OTree.node "M" (some 5) ⟨0, 0, 0⟩ ⟨0, 0, 0⟩
          (OForest.cons (OTree.node "A" none ⟨0, 0, 0⟩ ⟨0, 0, 0⟩ OForest.nil) OForest.nil))
    ∧ ∀ e ∈ treeDatas (OTree.node "M" (some 5) ⟨0, 0, 0⟩ ⟨0, 0, 0⟩
          (OForest.cons (OTree.node "A" none ⟨0, 0, 0⟩ ⟨0, 0, 0⟩ OForest.nil) OForest.nil)) 1,
        1 ≤ e.1) :=
  ⟨by unfold SceneWF; decide,
   by intro q hq; cases hq; decide,
   claim_C7_copyRec_recursive_copy
     (OTree.node "M" (some 5) ⟨0, 0, 0⟩ ⟨0, 0, 0⟩
       (OForest.cons (OTree.node "A" none ⟨0, 0, 0⟩ ⟨0, 0, 0⟩ OForest.nil) OForest.nil))
     (some 0)
     ⟨[⟨0, "Cube", some 0, none, ⟨0, 0, 0⟩, ⟨0, 0, 0⟩⟩], [0], [(0, 7)], 1, 1⟩
     (by unfold SceneWF; decide)
     (by intro q hq; cases hq; decide)⟩

theorem find?_append_some {α : Type} (A B : List α) (pr : α → Bool) (x : α)
    (h : A.find? pr = some x) : (A ++ B).find? pr = some x := by
  induction A with
  | nil => simp [List.find?] at h
  | cons a A ih =>
    simp only [List.cons_append, List.find?] at h ⊢
    cases hpa : pr a with
    | true => rw [hpa] at h; exact h
    | false => rw [hpa] at h; exact ih h

theorem find?_id_append_fresh (L M : List SObj) (i bound : ℕ) (hi : i < bound)
    (hM : ∀ o ∈ M, bound ≤ o.id) :
    (L ++ M).find? (fun o => o.id = i) = L.find? (fun o => o.id = i) := by
  cases hfa : L.find? (fun o => o.id = i) with
  | some x => exact find?_append_some _ _ _ _ hfa
  | none =>
    rw [find?_append_of_none _ _ _
      (by intro a ha; have := List.find?_eq_none.mp hfa a ha; simpa using this)]
    rw [List.find?_eq_none]
    intro x hx
    have := hM x hx
    simp only [decide_eq_true_eq]
    omega

theorem find?_key_append_fresh (L M : List (ℕ × ℕ)) (e bound : ℕ) (he : e < bound)
    (hM : ∀ q ∈ M, bound ≤ q.1) :
    (L ++ M).find? (fun q => q.1 = e) = L.find? (fun q => q.1 = e) := by
  cases hfa : L.find? (fun q => q.1 = e) with
  | some x => exact find?_append_some _ _ _ _ hfa
  | none =>
    rw [find?_append_of_none _ _ _
      (by intro a ha; have := List.find?_eq_none.mp hfa a ha; simpa using this)]
    rw [List.find?_eq_none]
    intro x hx
    have := hM x hx
    simp only [decide_eq_true_eq]
    omega

theorem find?_key_map_set (L : List (ℕ × ℕ)) (d v e : ℕ) (hne : e ≠ d) :
    (L.map (fun q => if q.1 = d then (q.1, v) else q)).find? (fun q => q.1 = e)
      = L.find? (fun q => q.1 = e) := by
  induction L with
  | nil => rfl
  | cons a L ih =>
    by_cases hae : a.1 = e
    · have haf : a.1 ≠ d := by omega
      simp only [List.map_cons, if_neg haf]
      rw [List.find?_cons_of_pos _ (by simp [hae]), List.find?_cons_of_pos _ (by simp [hae])]
    · by_cases had : a.1 = d
      · simp only [List.map_cons, if_pos had]
        rw [List.find?_cons_of_neg _ (by simp [hae]), List.find?_cons_of_neg _ (by simp [hae])]
        exact ih
      · simp only [List.map_cons, if_neg had]
        rw [List.find?_cons_of_neg _ (by simp [hae]), List.find?_cons_of_neg _ (by simp [hae])]
        exact ih

/-- C8 (amended): copyRec leaves the source subtree unmodified provided the
given parent is not the source object or one of its descendants: every
pre-existing object record (hence its parent link and data reference) is
unchanged, the derived children list of any pre-existing object i is unchanged
whenever the given parent is not i itself, collection membership of every
pre-existing id is unchanged, every pre-existing data block is unchanged, and
mutating a copy's (fresh) data block afterwards leaves every pre-existing
data block unchanged.  As stated in the claim, with parent ranging over all
arguments, the property fails: parenting the copy to the source object itself
grows the source's derived children list (see the counterexample). -/
theorem claim_C8_copyRec_frame (t : OTree) (p : Option ℕ) (s : Scene) :
    (∀ i, i < s.nextObj → findObj (copyRec t p s).1 i = findObj s i) ∧
    (∀ i, i < s.nextObj → p ≠ some i →
      childrenOf (copyRec t p s).1 i = childrenOf s i) ∧
    (∀ i, i < s.nextObj → (i ∈ (copyRec t p s).1.links ↔ i ∈ s.links)) ∧
    (∀ d, d < s.nextData → dataLookup (copyRec t p s).1 d = dataLookup s d) ∧
    (∀ d v e, s.nextData ≤ d → e < s.nextData →
      dataLookup (setData (copyRec t p s).1 d v) e = dataLookup s e) := by
  have heq := copyRec_eq t p s
  refine ⟨?_, ?_, ?_, ?_, ?_⟩
  · intro i hi
    rw [heq]
    show (s.objs ++ copies t p s.nextObj s.nextData).find? (fun o => o.id = i)
        = findObj s i
    rw [find?_id_append_fresh s.objs _ i s.nextObj hi
      (fun o ho => (copies_id_bound t p s.nextObj s.nextData o ho).1)]
    rfl
  · intro i hi hpi
    rw [heq]
    show (s.objs ++ copies t p s.nextObj s.nextData).filter (fun o => o.parent = some i)
        = childrenOf s i
    rw [List.filter_append]
    have hnil : (copies t p s.nextObj s.nextData).filter (fun o => o.parent = some i)
        = [] := by
      rw [List.filter_eq_nil]
      intro a ha
      rcases copies_parent t p s.nextObj s.nextData a ha with hp1 | ⟨q, hq, h1, h2⟩
      · simp only [decide_eq_true_eq]
        rw [hp1]
        exact hpi
      · simp only [decide_eq_true_eq, hq]
        intro hcon
        injection hcon with h
        omega
    rw [hnil, List.append_nil]
    rfl
  · intro i hi
    rw [heq]
    show i ∈ s.links ++ (copies t p s.nextObj s.nextData).map (fun o => o.id)
        ↔ i ∈ s.links
    rw [List.mem_append]
    constructor
    · rintro (h | h)
      · exact h
      · exfalso
        rcases List.mem_map.mp h with ⟨o, ho, hoi⟩
        have := (copies_id_bound t p s.nextObj s.nextData o ho).1
        omega
    · exact Or.inl
  · intro d hd
    rw [heq]
    show ((s.datas ++ treeDatas t s.nextData).find? (fun q => q.1 = d)).map (fun q => q.2)
        = dataLookup s d
    rw [find?_key_append_fresh s.datas _ d s.nextData hd
      (fun q hq => (treeDatas_key_bound t s.nextData q hq).1)]
    rfl
  · intro d v e hdge helt
    rw [heq]
    show (((s.datas ++ treeDatas t s.nextData).map
          (fun q => if q.1 = d then (q.1, v) else q)).find?
        (fun q => q.1 = e)).map (fun q => q.2) = dataLookup s e
    rw [find?_key_map_set _ d v e (by omega),
      find?_key_append_fresh s.datas _ e s.nextData helt
        (fun q hq => (treeDatas_key_bound t s.nextData q hq).1)]
    rfl

/-- Counterexample to C8 as stated: copying a one-object subtree with the
source object itself as the target parent changes the source's derived
children list from empty to one element. -/
theorem claim_C8_counterexample :
    (childrenOf (copyRec (OTree.node "Cube" none ⟨0, 0, 0⟩ ⟨0, 0, 0⟩ OForest.nil)
        (some 0)
        ⟨[⟨0, "Cube", none, none, ⟨0, 0, 0⟩, ⟨0, 0, 0⟩⟩], [0], [], 1, 0⟩).1 0).length = 1
    ∧ (childrenOf
        (⟨[⟨0, "Cube", none, none, ⟨0, 0, 0⟩, ⟨0, 0, 0⟩⟩], [0], [], 1, 0⟩ : Scene)
        0).length = 0 := by
  constructor
  · rw [copyRec_eq]
    simp [childrenOf, copies, copiesF, List.filter_cons]
  · simp [childrenOf, List.filter_cons]

/-- Witness for C8 at a concrete scene: copying next to an unrelated parent
target leaves the original record, children list, link membership and data
lookup unchanged, also after mutating the copy's fresh data block. -/
theorem claim_C8_witness :
    ((0 : ℕ) < (⟨[⟨0, "Cube", some 0, none, ⟨0, 0, 0⟩, ⟨0, 0, 0⟩⟩], [0], [(0, 7)], 1, 1⟩
        : Scene).nextObj)
    ∧ (none : Option ℕ) ≠ some 0
    ∧ findObj (copyRec (OTree.node "Cube" (some 9) ⟨0, 0, 0⟩ ⟨0, 0, 0⟩ OForest.nil) none
        ⟨[⟨0, "Cube", some 0, none, ⟨0, 0, 0⟩, ⟨0, 0, 0⟩⟩], [0], [(0, 7)], 1, 1⟩).1 0
      = findObj ⟨[⟨0, "Cube", some 0, none, ⟨0, 0, 0⟩, ⟨0, 0, 0⟩⟩], [0], [(0, 7)], 1, 1⟩ 0
    ∧ childrenOf (copyRec (OTree.node "Cube" (some 9) ⟨0, 0, 0⟩ ⟨0, 0, 0⟩ OForest.nil) none
        ⟨[⟨0, "Cube", some 0, none, ⟨0, 0, 0⟩, ⟨0, 0, 0⟩⟩], [0], [(0, 7)], 1, 1⟩).1 0
      = childrenOf ⟨[⟨0, "Cube", some 0, none, ⟨0, 0, 0⟩, ⟨0, 0, 0⟩⟩], [0], [(0, 7)], 1, 1⟩ 0
    ∧ ((0 : ℕ) ∈ (copyRec (OTree.node "Cube" (some 9) ⟨0, 0, 0⟩ ⟨0, 0, 0⟩ OForest.nil) none
        ⟨[⟨0, "Cube", some 0, none, ⟨0, 0, 0⟩, ⟨0, 0, 0⟩⟩], [0], [(0, 7)], 1, 1⟩).1.links
      ↔ (0 : ℕ) ∈ (⟨[⟨0, "Cube", some 0, none, ⟨0, 0, 0⟩, ⟨0, 0, 0⟩⟩], [0], [(0, 7)], 1, 1⟩
        : Scene).links)
    ∧ dataLookup (copyRec (OTree.node "Cube" (some 9) ⟨0, 0, 0⟩ ⟨0, 0, 0⟩ OForest.nil) none
        ⟨[⟨0, "Cube", some 0, none, ⟨0, 0, 0⟩, ⟨0, 0, 0⟩⟩], [0], [(0, 7)], 1, 1⟩).1 0
      = dataLookup ⟨[⟨0, "Cube", some 0, none, ⟨0, 0, 0⟩, ⟨0, 0, 0⟩⟩], [0], [(0, 7)], 1, 1⟩ 0
    ∧ dataLookup (setData (copyRec
          (OTree.node "Cube" (some 9) ⟨0, 0, 0⟩ ⟨0, 0, 0⟩ OForest.nil) none
          ⟨[⟨0, "Cube", some 0, none, ⟨0, 0, 0⟩, ⟨0, 0, 0⟩⟩], [0], [(0, 7)], 1, 1⟩).1 1 42) 0
      = dataLookup ⟨[⟨0, "Cube", some 0, none, ⟨0, 0, 0⟩, ⟨0, 0, 0⟩⟩], [0], [(0, 7)], 1, 1⟩ 0 :=
  ⟨by decide, by decide,
   (claim_C8_copyRec_frame (OTree.node "Cube" (some 9) ⟨0, 0, 0⟩ ⟨0, 0, 0⟩ OForest.nil) none
      ⟨[⟨0, "Cube", some 0, none, ⟨0, 0, 0⟩, ⟨0, 0, 0⟩⟩], [0], [(0, 7)], 1, 1⟩).1
     0 (by decide),
   (claim_C8_copyRec_frame (OTree.node "Cube" (some 9) ⟨0, 0, 0⟩ ⟨0, 0, 0⟩ OForest.nil) none
      ⟨[⟨0, "Cube", some 0, none, ⟨0, 0, 0⟩, ⟨0, 0, 0⟩⟩], [0], [(0, 7)], 1, 1⟩).2.1
     0 (by decide) (by decide),
   (claim_C8_copyRec_frame (OTree.node "Cube" (some 9) ⟨0, 0, 0⟩ ⟨0, 0, 0⟩ OForest.nil) none
      ⟨[⟨0, "Cube", some 0, none, ⟨0, 0, 0⟩, ⟨0, 0, 0⟩⟩], [0], [(0, 7)], 1, 1⟩).2.2.1
     0 (by decide),
   (claim_C8_copyRec_frame (OTree.node "Cube" (some 9) ⟨0, 0, 0⟩ ⟨0, 0, 0⟩ OForest.nil) none
      ⟨[⟨0, "Cube", some 0, none, ⟨0, 0, 0⟩, ⟨0, 0, 0⟩⟩], [0], [(0, 7)], 1, 1⟩).2.2.2.1
     0 (by decide),
   (claim_C8_copyRec_frame (OTree.node "Cube" (some 9) ⟨0, 0, 0⟩ ⟨0, 0, 0⟩ OForest.nil) none
      ⟨[⟨0, "Cube", some 0, none, ⟨0, 0, 0⟩, ⟨0, 0, 0⟩⟩], [0], [(0, 7)], 1, 1⟩).2.2.2.2
     1 42 0 (by decide) (by decide)⟩

/-- C10: makeMolecule of chang_techniques.py fails atomically on its name
checks: whenever the chosen name already belongs to a collection object, or
the parent name belongs to no collection object, the call returns none and the
scene is returned exactly as it was, with no object created, nothing linked,
and no existing object changed. -/
theorem claim_C10_makeMolecule_atomic_failure (s : Scene) (name parent_name : String)
    (attachments : List MAtt) (location : Vec3)
    (h : name ∈ objNames s ∨ parent_name ∉ objNames s) :
    chang_techniques.makeMolecule s name parent_name attachments location = (s, none) := by
  rcases h with h | h
  · simp only [chang_techniques.makeMolecule, if_pos h]
  · by_cases hn : name ∈ objNames s
    · simp only [chang_techniques.makeMolecule, if_pos hn]
    · simp only [chang_techniques.makeMolecule, if_neg hn, if_neg h]

/-- Witness for C10: a duplicate name and a missing parent name each return
the untouched scene with none. -/
theorem claim_C10_witness :
    ("Cube" ∈ objNames
        (⟨[⟨0, "Cube", none, none, ⟨0, 0, 0⟩, ⟨0, 0, 0⟩⟩], [0], [], 1, 0⟩ : Scene)
      ∨ "Parent" ∉ objNames
        (⟨[⟨0, "Cube", none, none, ⟨0, 0, 0⟩, ⟨0, 0, 0⟩⟩], [0], [], 1, 0⟩ : Scene))
    ∧ chang_techniques.makeMolecule
        ⟨[⟨0, "Cube", none, none, ⟨0, 0, 0⟩, ⟨0, 0, 0⟩⟩], [0], [], 1, 0⟩
        "Cube" "Parent" [] ⟨0, 0, 0⟩
      = (⟨[⟨0, "Cube", none, none, ⟨0, 0, 0⟩, ⟨0, 0, 0⟩⟩], [0], [], 1, 0⟩, none) :=
  ⟨Or.inl (by decide),
   claim_C10_makeMolecule_atomic_failure
     ⟨[⟨0, "Cube", none, none, ⟨0, 0, 0⟩, ⟨0, 0, 0⟩⟩], [0], [], 1, 0⟩
     "Cube" "Parent" [] ⟨0, 0, 0⟩ (Or.inl (by decide))⟩

theorem find?_map_pred_invariant {α : Type} (L : List α) (g : α → α) (pr : α → Bool)
    (h : ∀ o, pr (g o) = pr o) :
    (L.map g).find? pr = (L.find? pr).map g := by
  induction L with
  | nil => rfl
  | cons a L ih =>
    simp only [List.map_cons, List.find?, h a]
    cases hpa : pr a with
    | true => simp
    | false => exact ih

theorem findObj_updateObj (s : Scene) (i j : ℕ) (f : SObj → SObj)
    (hid : ∀ o, (f o).id = o.id) :
    findObj (updateObj s i f) j
      = (findObj s j).map (fun o => if o.id = i then f o else o) := by
  show (s.objs.map (fun o => if o.id = i then f o else o)).find? (fun o => o.id = j)
      = (s.objs.find? (fun o => o.id = j)).map (fun o => if o.id = i then f o else o)
  refine find?_map_pred_invariant s.objs _ _ ?_
  intro o
  by_cases ho : o.id = i
  · simp [ho, hid]
  · simp [ho]

theorem chang_techniques.attachLoop_cons (rootId : ℕ) (name : String) (a : MAtt)
    (rest : List MAtt) (i : ℕ) (s : Scene) (sid : ℕ) (t : OTree)
    (hsid : linkedIdOf ⟨s.objs ++ [⟨s.nextObj, "EMPTY_" ++ (name ++ "_" ++ toString i), none,
        none, ⟨0, 0, 0⟩, ⟨0, a.down, a.zEuler⟩⟩], s.links ++ [s.nextObj], s.datas,
        s.nextObj + 1, s.nextData⟩ a.srcName = some sid)
    (hsub : subtreeF ⟨s.objs ++ [⟨s.nextObj, "EMPTY_" ++ (name ++ "_" ++ toString i), none,
        none, ⟨0, 0, 0⟩, ⟨0, a.down, a.zEuler⟩⟩], s.links ++ [s.nextObj], s.datas,
        s.nextObj + 1, s.nextData⟩
      (s.objs ++ [(⟨s.nextObj, "EMPTY_" ++ (name ++ "_" ++ toString i), none, none,
        ⟨0, 0, 0⟩, ⟨0, a.down, a.zEuler⟩⟩ : SObj)]).length sid = some t) :
    chang_techniques.attachLoop rootId name (a :: rest) i s
      = chang_techniques.attachLoop rootId name rest (i + 1)
          (updateObj (updateObj (copyRec t none ⟨s.objs ++ [⟨s.nextObj,
              "EMPTY_" ++ (name ++ "_" ++ toString i), none, none, ⟨0, 0, 0⟩,
              ⟨0, a.down, a.zEuler⟩⟩], s.links ++ [s.nextObj], s.datas, s.nextObj + 1,
              s.nextData⟩).1
            (copyRec t none ⟨s.objs ++ [⟨s.nextObj,
              "EMPTY_" ++ (name ++ "_" ++ toString i), none, none, ⟨0, 0, 0⟩,
              ⟨0, a.down, a.zEuler⟩⟩], s.links ++ [s.nextObj], s.datas, s.nextObj + 1,
              s.nextData⟩).2
            (fun o => ⟨o.id, name ++ "_" ++ toString i, o.dataId, some s.nextObj,
              ⟨0, 0, a.d⟩, ⟨Real.pi, 0, a.bond⟩⟩))
          s.nextObj (fun o => ⟨o.id, o.name, o.dataId, some rootId, o.loc, o.rot⟩)) := by
  simp only [chang_techniques.attachLoop, hsid, hsub]

theorem chang_techniques.attachStep_records (s : Scene) (name : String) (a : MAtt)
    (i rootId : ℕ) (t : OTree) (hwf : SceneWF s) :
    findObj (updateObj (updateObj (copyRec t none ⟨s.objs ++ [⟨s.nextObj,
          "EMPTY_" ++ (name ++ "_" ++ toString i), none, none, ⟨0, 0, 0⟩,
          ⟨0, a.down, a.zEuler⟩⟩], s.links ++ [s.nextObj], s.datas, s.nextObj + 1,
          s.nextData⟩).1
        (copyRec t none ⟨s.objs ++ [⟨s.nextObj,
          "EMPTY_" ++ (name ++ "_" ++ toString i), none, none, ⟨0, 0, 0⟩,
          ⟨0, a.down, a.zEuler⟩⟩], s.links ++ [s.nextObj], s.datas, s.nextObj + 1,
          s.nextData⟩).2
        (fun o => ⟨o.id, name ++ "_" ++ toString i, o.dataId, some s.nextObj,
          ⟨0, 0, a.d⟩, ⟨Real.pi, 0, a.bond⟩⟩))
      s.nextObj (fun o => ⟨o.id, o.name, o.dataId, some rootId, o.loc, o.rot⟩))
      s.nextObj
      = some ⟨s.nextObj, "EMPTY_" ++ (name ++ "_" ++ toString i), none, some rootId,
          ⟨0, 0, 0⟩, ⟨0, a.down, a.zEuler⟩⟩
    ∧ findObj (updateObj (updateObj (copyRec t none ⟨s.objs ++ [⟨s.nextObj,
          "EMPTY_" ++ (name ++ "_" ++ toString i), none, none, ⟨0, 0, 0⟩,
          ⟨0, a.down, a.zEuler⟩⟩], s.links ++ [s.nextObj], s.datas, s.nextObj + 1,
          s.nextData⟩).1
        (copyRec t none ⟨s.objs ++ [⟨s.nextObj,
          "EMPTY_" ++ (name ++ "_" ++ toString i), none, none, ⟨0, 0, 0⟩,
          ⟨0, a.down, a.zEuler⟩⟩], s.links ++ [s.nextObj], s.datas, s.nextObj + 1,
          s.nextData⟩).2
        (fun o => ⟨o.id, name ++ "_" ++ toString i, o.dataId, some s.nextObj,
          ⟨0, 0, a.d⟩, ⟨Real.pi, 0, a.bond⟩⟩))
      s.nextObj (fun o => ⟨o.id, o.name, o.dataId, some rootId, o.loc, o.rot⟩))
      (s.nextObj + 1)
      = some ⟨s.nextObj + 1, name ++ "_" ++ toString i,
          (rootRec t none (s.nextObj + 1) s.nextData).dataId, some s.nextObj,
          ⟨0, 0, a.d⟩, ⟨Real.pi, 0, a.bond⟩⟩ := by
  have heq := copyRec_eq t none ⟨s.objs ++ [⟨s.nextObj,
    "EMPTY_" ++ (name ++ "_" ++ toString i), none, none, ⟨0, 0, 0⟩,
    ⟨0, a.down, a.zEuler⟩⟩], s.links ++ [s.nextObj], s.datas, s.nextObj + 1, s.nextData⟩
  have hfe : findObj (⟨(s.objs ++ [⟨s.nextObj, "EMPTY_" ++ (name ++ "_" ++ toString i),
        none, none, ⟨0, 0, 0⟩, ⟨0, a.down, a.zEuler⟩⟩])
        ++ copies t none (s.nextObj + 1) s.nextData,
      (s.links ++ [s.nextObj]) ++ (copies t none (s.nextObj + 1) s.nextData).map
        (fun o => o.id),
      s.datas ++ treeDatas t s.nextData,
      s.nextObj + 1 + OTree.size t, s.nextData + OTree.dsize t⟩ : Scene) s.nextObj
      = some ⟨s.nextObj, "EMPTY_" ++ (name ++ "_" ++ toString i), none, none,
          ⟨0, 0, 0⟩, ⟨0, a.down, a.zEuler⟩⟩ := by
    show ((s.objs ++ [(⟨s.nextObj, "EMPTY_" ++ (name ++ "_" ++ toString i), none, none,
        ⟨0, 0, 0⟩, ⟨0, a.down, a.zEuler⟩⟩ : SObj)])
        ++ copies t none (s.nextObj + 1) s.nextData).find? (fun o => o.id = s.nextObj)
        = some ⟨s.nextObj, "EMPTY_" ++ (name ++ "_" ++ toString i), none, none,
            ⟨0, 0, 0⟩, ⟨0, a.down, a.zEuler⟩⟩
    rw [List.append_assoc, find?_append_of_none s.objs _ _ (by
        intro o ho
        have := (hwf.1 o ho).1
        simp only [decide_eq_false_iff_not]
        omega),
      List.singleton_append, List.find?_cons_of_pos _ (by simp)]
  have hfr : findObj (⟨(s.objs ++ [⟨s.nextObj, "EMPTY_" ++ (name ++ "_" ++ toString i),
        none, none, ⟨0, 0, 0⟩, ⟨0, a.down, a.zEuler⟩⟩])
        ++ copies t none (s.nextObj + 1) s.nextData,
      (s.links ++ [s.nextObj]) ++ (copies t none (s.nextObj + 1) s.nextData).map
        (fun o => o.id),
      s.datas ++ treeDatas t s.nextData,
      s.nextObj + 1 + OTree.size t, s.nextData + OTree.dsize t⟩ : Scene) (s.nextObj + 1)
      = some (rootRec t none (s.nextObj + 1) s.nextData) := by
    have h := findObj_copies t none (s.nextObj + 1) s.nextData
      (s.objs ++ [⟨s.nextObj, "EMPTY_" ++ (name ++ "_" ++ toString i), none, none,
        ⟨0, 0, 0⟩, ⟨0, a.down, a.zEuler⟩⟩]) []
      ((s.links ++ [s.nextObj]) ++ (copies t none (s.nextObj + 1) s.nextData).map
        (fun o => o.id))
      (s.datas ++ treeDatas t s.nextData)
      (s.nextObj + 1 + OTree.size t) (s.nextData + OTree.dsize t)
      (by intro o ho
          rcases List.mem_append.mp ho with ho | ho
          · have := (hwf.1 o ho).1
            omega
          · have hoe : o = ⟨s.nextObj, "EMPTY_" ++ (name ++ "_" ++ toString i), none,
                none, ⟨0, 0, 0⟩, ⟨0, a.down, a.zEuler⟩⟩ := by simpa using ho
            subst hoe
            show s.nextObj ≠ s.nextObj + 1
            omega)
    have hsc : (⟨(s.objs ++ [⟨s.nextObj, "EMPTY_" ++ (name ++ "_" ++ toString i), none,
          none, ⟨0, 0, 0⟩, ⟨0, a.down, a.zEuler⟩⟩])
          ++ copies t none (s.nextObj + 1) s.nextData ++ [],
        (s.links ++ [s.nextObj]) ++ (copies t none (s.nextObj + 1) s.nextData).map
          (fun o => o.id),
        s.datas ++ treeDatas t s.nextData,
        s.nextObj + 1 + OTree.size t, s.nextData + OTree.dsize t⟩ : Scene)
        = ⟨(s.objs ++ [⟨s.nextObj, "EMPTY_" ++ (name ++ "_" ++ toString i), none,
            none, ⟨0, 0, 0⟩, ⟨0, a.down, a.zEuler⟩⟩])
            ++ copies t none (s.nextObj + 1) s.nextData,
          (s.links ++ [s.nextObj]) ++ (copies t none (s.nextObj + 1) s.nextData).map
            (fun o => o.id),
          s.datas ++ treeDatas t s.nextData,
          s.nextObj + 1 + OTree.size t, s.nextData + OTree.dsize t⟩ := by
      simp
    rw [hsc] at h
    exact h
  rw [heq]
  constructor
  · rw [findObj_updateObj _ s.nextObj s.nextObj
        (fun o => ⟨o.id, o.name, o.dataId, some rootId, o.loc, o.rot⟩) (fun o => rfl),
      findObj_updateObj _ (s.nextObj + 1) s.nextObj
        (fun o => ⟨o.id, name ++ "_" ++ toString i, o.dataId, some s.nextObj,
          ⟨0, 0, a.d⟩, ⟨Real.pi, 0, a.bond⟩⟩) (fun o => rfl),
      hfe]
    simp
  · rw [findObj_updateObj _ s.nextObj (s.nextObj + 1)
        (fun o => ⟨o.id, o.name, o.dataId, some rootId, o.loc, o.rot⟩) (fun o => rfl),
      findObj_updateObj _ (s.nextObj + 1) (s.nextObj + 1)
        (fun o => ⟨o.id, name ++ "_" ++ toString i, o.dataId, some s.nextObj,
          ⟨0, 0, a.d⟩, ⟨Real.pi, 0, a.bond⟩⟩) (fun o => rfl),
      hfr]
    simp [rootRec_id]

/-- C6 (amended): in makeMolecule of chang_techniques.py every attachment
entry [group_name, d, down_euler, z_euler, bond_angle] is placed rigidly by
bond length and two angles: an intermediate empty with Euler rotations
(0, down_euler, z_euler) is parented to the parent copy, the attached copy
sits at local position (0, 0, d) with Euler rotation (pi, 0, bond_angle)
parented to that empty, and its distance from the parent origin is d whenever
d is nonnegative.  In helix_maker.py, however, the attached copy's Euler
rotation is (0, 0, bond_angle), not (pi, 0, bond_angle): see the
counterexample. -/
theorem claim_C6_attachment_placement (s : Scene) (rootId : ℕ) (name : String)
    (a : MAtt) (rest : List MAtt) (i : ℕ) (sid : ℕ) (t : OTree)
    (hwf : SceneWF s)
    (hsid : linkedIdOf ⟨s.objs ++ [⟨s.nextObj, "EMPTY_" ++ (name ++ "_" ++ toString i), none,
        none, ⟨0, 0, 0⟩, ⟨0, a.down, a.zEuler⟩⟩], s.links ++ [s.nextObj], s.datas,
        s.nextObj + 1, s.nextData⟩ a.srcName = some sid)
    (hsub : subtreeF ⟨s.objs ++ [⟨s.nextObj, "EMPTY_" ++ (name ++ "_" ++ toString i), none,
        none, ⟨0, 0, 0⟩, ⟨0, a.down, a.zEuler⟩⟩], s.links ++ [s.nextObj], s.datas,
        s.nextObj + 1, s.nextData⟩
      (s.objs ++ [(⟨s.nextObj, "EMPTY_" ++ (name ++ "_" ++ toString i), none, none,
        ⟨0, 0, 0⟩, ⟨0, a.down, a.zEuler⟩⟩ : SObj)]).length sid = some t) :
    ∃ s4, chang_techniques.attachLoop rootId name (a :: rest) i s
        = chang_techniques.attachLoop rootId name rest (i + 1) s4
      ∧ findObj s4 s.nextObj
          = some ⟨s.nextObj, "EMPTY_" ++ (name ++ "_" ++ toString i), none, some rootId,
              ⟨0, 0, 0⟩, ⟨0, a.down, a.zEuler⟩⟩
      ∧ (∃ dId, findObj s4 (s.nextObj + 1)
          = some ⟨s.nextObj + 1, name ++ "_" ++ toString i, dId, some s.nextObj,
              ⟨0, 0, a.d⟩, ⟨Real.pi, 0, a.bond⟩⟩)
      ∧ (0 ≤ a.d → norm3 (euler ⟨0, a.down, a.zEuler⟩ ⟨0, 0, a.d⟩) = a.d) := by
  refine ⟨_, chang_techniques.attachLoop_cons rootId name a rest i s sid t hsid hsub,
    (chang_techniques.attachStep_records s name a i rootId t hwf).1,
    ⟨_, (chang_techniques.attachStep_records s name a i rootId t hwf).2⟩, ?_⟩
  intro hd
  have hz := cos_sq_add_sin_sq a.zEuler
  have hy := sin_sq_add_cos_sq a.down
  have harg : (euler ⟨0, a.down, a.zEuler⟩ ⟨0, 0, a.d⟩).x ^ 2
      + (euler ⟨0, a.down, a.zEuler⟩ ⟨0, 0, a.d⟩).y ^ 2
      + (euler ⟨0, a.down, a.zEuler⟩ ⟨0, 0, a.d⟩).z ^ 2 = a.d ^ 2 := by
    simp only [euler, rotX, rotY, rotZ, Real.sin_zero, Real.cos_zero]
    linear_combination (sin a.down * a.d) ^ 2 * hz + a.d ^ 2 * hy
  show Real.sqrt ((euler ⟨0, a.down, a.zEuler⟩ ⟨0, 0, a.d⟩).x ^ 2
      + (euler ⟨0, a.down, a.zEuler⟩ ⟨0, 0, a.d⟩).y ^ 2
      + (euler ⟨0, a.down, a.zEuler⟩ ⟨0, 0, a.d⟩).z ^ 2) = a.d
  rw [harg]
  exact Real.sqrt_sq hd

/-- Counterexample to C6 as stated: the attachment loop of makeMolecule in
helix_maker.py resets the copy's Euler rotation to (0, 0, 0) and then sets
only its z component to the bond angle, so for a concrete attachment the
copy's x Euler component is 0, which is not pi. -/
theorem claim_C6_counterexample :
    helix_maker.makeMolecule ["Adenine"] "Mol" [⟨"Adenine", 1, 2, 3, 4⟩] ⟨0, 0, 0⟩
        = some [helix_maker.attachOne "Mol" 0 ⟨"Adenine", 1, 2, 3, 4⟩]
      ∧ (helix_maker.attachOne "Mol" 0 ⟨"Adenine", 1, 2, 3, 4⟩).objRot.x = 0
      ∧ (0 : ℝ) ≠ Real.pi :=
  ⟨rfl, rfl, fun h => Real.pi_ne_zero h.symm⟩

/-- Witness for C6 at a concrete scene holding one source group. -/
theorem claim_C6_witness :
    SceneWF (⟨[⟨0, "Adenine", none, none, ⟨0, 0, 0⟩, ⟨0, 0, 0⟩⟩], [0], [], 1, 0⟩ : Scene)
    ∧ linkedIdOf ⟨[⟨0, "Adenine", none, none, ⟨0, 0, 0⟩, ⟨0, 0, 0⟩⟩,
        ⟨1, "EMPTY_" ++ ("Mol" ++ "_" ++ toString 0), none, none, ⟨0, 0, 0⟩, ⟨0, 2, 3⟩⟩],
        [0, 1], [], 2, 0⟩ "Adenine" = some 0
    ∧ subtreeF ⟨[⟨0, "Adenine", none, none, ⟨0, 0, 0⟩, ⟨0, 0, 0⟩⟩,
        ⟨1, "EMPTY_" ++ ("Mol" ++ "_" ++ toString 0), none, none, ⟨0, 0, 0⟩, ⟨0, 2, 3⟩⟩],
        [0, 1], [], 2, 0⟩ 2 0
      = some (OTree.node "Adenine" none ⟨0, 0, 0⟩ ⟨0, 0, 0⟩ OForest.nil)
    ∧ (∃ s4, chang_techniques.attachLoop 7 "Mol" [⟨"Adenine", 1, 2, 3, 4⟩] 0
          ⟨[⟨0, "Adenine", none, none, ⟨0, 0, 0⟩, ⟨0, 0, 0⟩⟩], [0], [], 1, 0⟩
        = chang_techniques.attachLoop 7 "Mol" [] 1 s4
      ∧ findObj s4 1
          = some ⟨1, "EMPTY_" ++ ("Mol" ++ "_" ++ toString 0), none, some 7,
              ⟨0, 0, 0⟩, ⟨0, 2, 3⟩⟩
      ∧ (∃ dId, findObj s4 2
          = some ⟨2, "Mol" ++ "_" ++ toString 0, dId, some 1,
              ⟨0, 0, 1⟩, ⟨Real.pi, 0, 4⟩⟩)
      ∧ ((0 : ℝ) ≤ 1 → norm3 (euler ⟨0, 2, 3⟩ ⟨0, 0, 1⟩) = 1)) :=
  ⟨by unfold SceneWF; decide, by decide, by rfl,
   claim_C6_attachment_placement
     ⟨[⟨0, "Adenine", none, none, ⟨0, 0, 0⟩, ⟨0, 0, 0⟩⟩], [0], [], 1, 0⟩
     7 "Mol" ⟨"Adenine", 1, 2, 3, 4⟩ [] 0 0
     (OTree.node "Adenine" none ⟨0, 0, 0⟩ ⟨0, 0, 0⟩ OForest.nil)
     (by unfold SceneWF; decide) (by decide) (by rfl)⟩
